import Mathlib

/-
Verification of the change-tracking and reconciliation core of the ESIRemote
client library (files models.py, esi_remote.py, both in the legacy top-level
layout and the packaged src/esi_remote layout).

The embedding has two layers:

* a pure, value-level model of the reconciler (get_updated_values), of
  EnumField / PropertyEnum snapshot-update and mutation logic, and of
  PropertyArray construction;

* a store-based model of Save and OperatorActor objects together with the
  ESIRemote session commit paths.  Python objects are mutable and the code
  relies on reference semantics (a parent Save adopts a sub-save's
  pending-changes dict by reference; reconciliation reuses object instances
  shared between the session's old and new collections), so Save/OperatorActor
  objects and their commit_changes dicts live in explicit stores addressed by
  natural numbers; attribute assignment is modelled by updating a cell, and
  rebinding an attribute to a fresh dict is modelled by allocating a new cell.

Python dicts are modelled as insertion-ordered association lists where
assigning to an existing key overwrites in place (dictInsert) and lookup
returns the value of the first (unique) occurrence (dictGet?).
-/

set_option maxHeartbeats 1000000

/-- JSON-like values appearing in commit_changes payloads. -/
inductive JVal where
  | str (s : String)
  | int (n : Int)
  | bool (b : Bool)
  | obj (fields : List (String × JVal))
  | arr (elems : List JVal)

/-- A commit_changes dict: insertion-ordered field-name/value map. -/
abbrev CC := List (String × JVal)

/-- Python dict assignment d[k] = v: overwrite the value at an existing key in
place, otherwise append the new entry at the end. -/
def dictInsert {κ α : Type} [DecidableEq κ] (d : List (κ × α)) (k : κ) (v : α) :
    List (κ × α) :=
  match d with
  | [] => [(k, v)]
  | (k', v') :: rest => if k' = k then (k', v) :: rest else (k', v') :: dictInsert rest k v

/-- Python dict lookup d.get(k): the value at the first occurrence of the key. -/
def dictGet? {κ α : Type} [DecidableEq κ] (d : List (κ × α)) (k : κ) : Option α :=
  match d with
  | [] => none
  | (k', v') :: rest => if k' = k then some v' else dictGet? rest k

/-- Python list(d.values()) for an insertion-ordered dict. -/
def dictValues {κ α : Type} (d : List (κ × α)) : List α := d.map Prod.snd

/-! ## Pure model of the reconciler (models.get_updated_values)

An entity is abstracted to its identity-field value, its remaining data, and
its commit_changes dict.  The snake-case renaming applied by prepare_variables
to the identity attribute name is pure name plumbing and is absorbed into the
`ident` / `recAttr` accessors. -/

/-- A trackable entity as seen by the reconciler: identity-field value,
other payload, and the pending-changes dict. -/
structure RObj (κ δ : Type) where
  ident : κ
  data : δ
  commitChanges : CC

/-- The statement item.commit_changes = dict() performed on each entity the
reconciler returns. -/
def clearChanges {κ δ : Type} (o : RObj κ δ) : RObj κ δ := { o with commitChanges := [] }

/-- old_items_dict = {getattr(item, variable_name): item for item in old_items}. -/
def pyDictOf {κ δ : Type} [DecidableEq κ] (old_items : List (RObj κ δ)) :
    List (κ × RObj κ δ) :=
  old_items.foldl (fun d it => dictInsert d it.ident it) []

/-- models.get_updated_values: for each new record, reuse the old entity whose
identity-field value matches, else the freshly parsed one; clear the returned
entity's commit_changes.  (In Python the parser argument of dict.get is
evaluated eagerly; with a total parser this is observationally irrelevant, see
get_updated_valuesE for the fallible-parser version.) -/
def get_updated_values {κ δ ρ : Type} [DecidableEq κ] (old_items : List (RObj κ δ))
    (new_items : List ρ) (objectParser : ρ → RObj κ δ) (recAttr : ρ → κ) :
    List (RObj κ δ) :=
  let old_items_dict := pyDictOf old_items
  new_items.map fun item =>
    clearChanges ((dictGet? old_items_dict (recAttr item)).getD (objectParser item))

/-- The loop of get_updated_values with a fallible parser: Python evaluates
objectParser(item) for every record before the dict lookup can discard it, so
a parser exception on any record aborts the whole loop. -/
def get_updated_valuesE_go {κ δ ρ : Type} [DecidableEq κ]
    (old_items_dict : List (κ × RObj κ δ)) (objectParser : ρ → Except String (RObj κ δ))
    (recAttr : ρ → κ) : List ρ → Except String (List (RObj κ δ))
  | [] => Except.ok []
  | item :: rest => do
    let parsed ← objectParser item
    let value := clearChanges ((dictGet? old_items_dict (recAttr item)).getD parsed)
    let values ← get_updated_valuesE_go old_items_dict objectParser recAttr rest
    pure (value :: values)

/-- get_updated_values with a fallible parser. -/
def get_updated_valuesE {κ δ ρ : Type} [DecidableEq κ] (old_items : List (RObj κ δ))
    (new_items : List ρ) (objectParser : ρ → Except String (RObj κ δ))
    (recAttr : ρ → κ) : Except String (List (RObj κ δ)) :=
  get_updated_valuesE_go (pyDictOf old_items) objectParser recAttr new_items

/-- Whether an Except result is a success. -/
def isOkB {α : Type} : Except String α → Bool
  | Except.ok _ => true
  | Except.error _ => false

/-! ## Pure model of EnumField / PropertyEnum (models.py) -/

/-- models.EnumField: an immutable (id, value) pair. -/
structure EnumField where
  enum_field_id : Int
  enum_field_value : String
deriving DecidableEq

/-- A wire record for one enum value: {"enumFieldId": ..., "enumFieldValue": ...}. -/
structure EnumRec where
  enumFieldId : Int
  enumFieldValue : String
deriving DecidableEq

/-- EnumField.parse. -/
def EnumField.parse (r : EnumRec) : EnumField :=
  { enum_field_id := r.enumFieldId, enum_field_value := r.enumFieldValue }

/-- models.PropertyEnum, value-level (its commit_callback is modelled in the
session layer; here the commit invocation is reported as a Bool). -/
structure PropertyEnum where
  name : String
  type : String
  display_name : String
  all_values : List EnumField
  current_value : EnumField
  commit_changes : CC

/-- A wire record for a PropertyEnum snapshot. -/
structure PEItem where
  name : String
  type : String
  displayName : String
  allValues : List EnumRec
  currentValue : EnumRec

/-- The final value of the Python loop variable enum_field after

    enum_field = None
    for enum_field in self.all_values:
        if (enum_field.enum_field_id, enum_field.enum_field_value) == (...): break

none when all_values is empty (the variable stays None); the first matching
element when a match exists; otherwise the LAST element of all_values, because
a Python for-loop leaks its final iteration value. -/
def pickEnumField (all_values : List EnumField) (enum_new : EnumRec) : Option EnumField :=
  match all_values.find? (fun f =>
      decide (f.enum_field_id = enum_new.enumFieldId) &&
      decide (f.enum_field_value = enum_new.enumFieldValue)) with
  | some f => some f
  | none => all_values.getLast?

/-- PropertyEnum.update_values: rebuild all_values keyed by enum_field_id using
pickEnumField per incoming record (if not enum_field: parse fresh; a non-None
object is always truthy), then resolve current_value in the rebuilt dict,
raising KeyError (modelled as Except.error) when the id is absent. -/
def PropertyEnum.update_values (pe : PropertyEnum) (item : PEItem) :
    Except String PropertyEnum :=
  let new_enums := item.allValues.foldl (fun d enum_new =>
    let enum_field := match pickEnumField pe.all_values enum_new with
      | some f => f
      | none => EnumField.parse enum_new
    dictInsert d enum_field.enum_field_id enum_field) []
  match dictGet? new_enums item.currentValue.enumFieldId with
  | none => Except.error "KeyError: currentValue enumFieldId not in new_enums"
  | some cv => Except.ok { pe with
      name := item.name
      type := item.type
      display_name := item.displayName
      all_values := dictValues new_enums
      current_value := cv
      commit_changes := [] }

/-- PropertyEnum.current_value setter: raise ValueError when the value is not
in all_values, otherwise set it, stage {currentValue, name} and invoke commit
(the returned Bool records that the commit delegate was invoked). -/
def PropertyEnum.setCurrentValue (pe : PropertyEnum) (value : EnumField) :
    Except String (PropertyEnum × Bool) :=
  if value ∉ pe.all_values then
    Except.error "ValueError: Value is not in all_values."
  else
    let staged := JVal.obj [("enumFieldId", JVal.int value.enum_field_id),
                            ("enumFieldValue", JVal.str value.enum_field_value)]
    let pe1 := { pe with current_value := value }
    let pe2 := { pe1 with commit_changes := dictInsert pe1.commit_changes "currentValue" staged }
    let pe3 := { pe2 with commit_changes := dictInsert pe2.commit_changes "name" (JVal.str pe2.name) }
    Except.ok (pe3, true)

/-! ## Pure model of PropertyArray construction

The repository snapshot carries two implementations.  The legacy top-level
models.py prints "PropertyArrays are not implemented yet" and then constructs
the object normally; the packaged src/esi_remote/models.py sets the attributes
and then raises NotImplementedError.  prepare_variables only renames keys and
is absorbed into the kwargs list. -/

/-- A constructed PropertyArray: just its keyword arguments set as attributes. -/
structure PropertyArrayObj where
  kwargs : List (String × JVal)

/-- Legacy models.py PropertyArray.__init__: prints a notice (no observable
effect here) and constructs successfully. -/
def PropertyArray.initLegacy (kwargs : List (String × JVal)) :
    Except String PropertyArrayObj :=
  Except.ok { kwargs := kwargs }

/-- Packaged src/esi_remote/models.py PropertyArray.__init__: sets the
attributes, then unconditionally raises NotImplementedError. -/
def PropertyArray.initPackaged (kwargs : List (String × JVal)) :
    Except String PropertyArrayObj :=
  Except.error "NotImplementedError: PropertyArrays are not implemented yet"

/-- PropertyArray.parse (legacy) = cls(**prepare_variables(item)). -/
def PropertyArray.parseLegacy (item : List (String × JVal)) :
    Except String PropertyArrayObj :=
  PropertyArray.initLegacy item

/-- PropertyArray.parse (packaged) = cls(**prepare_variables(item)). -/
def PropertyArray.parsePackaged (item : List (String × JVal)) :
    Except String PropertyArrayObj :=
  PropertyArray.initPackaged item

/-! ## Store-based model of Save objects and the save commit path

Save objects and their commit_changes dicts are mutable and aliased in
Python, so both live in a store: saves and dicts are lists indexed by
allocation order, and an object's commit_changes attribute is a reference
(ccRef) into the dicts list. -/

/-- The value of a Save's commit_callback attribute: the default
models.commit (which raises), a parent Save's bound commit method, or the
session's _commit_save method. -/
inductive Callback where
  | defaultRaise
  | parentCommit (parent : Nat)
  | sessionCommitSave
deriving DecidableEq

/-- A Save object: fields of models.Save, with sub_saves as references to
other Save objects and commit_changes as a reference into the dict store. -/
structure SaveObj where
  scenario_id : Int
  scenario_name : String
  category_name : String
  absolute_path : String
  sub_saves : List Nat
  ccRef : Nat
  callback : Callback

/-- Placeholder returned when dereferencing an out-of-range Save address;
reachable stores never do this. -/
def dummySave : SaveObj :=
  { scenario_id := 0, scenario_name := "", category_name := "", absolute_path := "",
    sub_saves := [], ccRef := 0, callback := Callback.defaultRaise }

/-- The store of Save objects and commit_changes dicts. -/
structure SStore where
  saves : List SaveObj
  dicts : List CC

/-- Dereference a Save address. -/
def SStore.save (st : SStore) (r : Nat) : SaveObj := st.saves.getD r dummySave

/-- Dereference a commit_changes dict address. -/
def SStore.dict (st : SStore) (i : Nat) : CC := st.dicts.getD i []

/-- Allocate a new commit_changes dict; returns its address. -/
def SStore.allocDict (st : SStore) (d : CC) : SStore × Nat :=
  ({ st with dicts := st.dicts ++ [d] }, st.dicts.length)

/-- Allocate a new Save object; returns its address. -/
def SStore.allocSave (st : SStore) (o : SaveObj) : SStore × Nat :=
  ({ st with saves := st.saves ++ [o] }, st.saves.length)

/-- Mutate a Save object in place. -/
def SStore.updateSave (st : SStore) (r : Nat) (f : SaveObj → SaveObj) : SStore :=
  { st with saves := st.saves.set r (f (st.save r)) }

/-- Overwrite a commit_changes dict in place (mutation of the dict object,
visible through every reference to it). -/
def SStore.setDict (st : SStore) (i : Nat) (d : CC) : SStore :=
  { st with dicts := st.dicts.set i d }

/-- save.commit_changes = other dict: rebind the attribute to an existing
dict object. -/
def SStore.setCCRef (st : SStore) (r : Nat) (i : Nat) : SStore :=
  st.updateSave r (fun o => { o with ccRef := i })

/-- save.commit_callback = f. -/
def SStore.setCallback (st : SStore) (r : Nat) (cb : Callback) : SStore :=
  st.updateSave r (fun o => { o with callback := cb })

/-- A wire record from GET save-files, with nested subSaves. -/
inductive SaveRec where
  | mk (scenarioId : Int) (scenarioName : String) (categoryName : String)
       (absolutePath : String) (subSaves : List SaveRec)

/-- The absolutePath field of a save record (the identity key). -/
def SaveRec.absolutePath : SaveRec → String
  | .mk _ _ _ p _ => p

mutual

/-- Save.parse: recursively parse the subSaves, construct the Save (Base
init gives it a fresh empty commit_changes dict and the default raising
callback), then rebind every sub-save's commit_callback to this save's
commit method. -/
def saveParse (st : SStore) : SaveRec → SStore × Nat
  | SaveRec.mk sid sname cname apath subs =>
      let p1 := saveParseList st subs
      let p2 := p1.1.allocDict []
      let p3 := p2.1.allocSave
        { scenario_id := sid, scenario_name := sname, category_name := cname,
          absolute_path := apath, sub_saves := p1.2, ccRef := p2.2,
          callback := Callback.defaultRaise }
      (p1.2.foldl (fun s r => s.setCallback r (Callback.parentCommit p3.2)) p3.1, p3.2)

/-- [cls.parse(sub) for sub in item' subSaves], threading the store. -/
def saveParseList (st : SStore) : List SaveRec → SStore × List Nat
  | [] => (st, [])
  | rec :: recs =>
      let p1 := saveParse st rec
      let p2 := saveParseList p1.1 recs
      (p2.1, p1.2 :: p2.2)

end

/-- get_updated_values instantiated at Save objects living in the store,
matching by absolutePath: build the old dict up front, then for each record
parse it (Python evaluates the dict.get default eagerly), keep the matched old
instance when one exists, and rebind the kept instance's commit_changes to a
fresh empty dict. -/
def hGetUpdatedSaves (st : SStore) (oldRefs : List Nat) (recs : List SaveRec) :
    SStore × List Nat :=
  let old_items_dict := oldRefs.foldl (fun d r => dictInsert d (st.save r).absolute_path r) []
  recs.foldl (fun (acc : SStore × List Nat) rec =>
    let p1 := saveParse acc.1 rec
    let chosen := (dictGet? old_items_dict rec.absolutePath).getD p1.2
    let p2 := p1.1.allocDict []
    (p2.1.setCCRef chosen p2.2, acc.2 ++ [chosen])) (st, [])

/-- A server response body, restricted to the flat string objects the client
ever compares against. -/
abbrev ServerResp := List (String × String)

/-- The exact acknowledgement _commit_save requires. -/
def goodSaveResp : ServerResp := [("answer", "save file has been loaded")]

/-- The session state relevant to the save commit path, together with the
(abstracted, constant) server and a log of PUT payloads. -/
structure SaveWorld where
  store : SStore
  saveFiles : List Nat
  activeId : Int
  activeName : String
  autocommit : Bool
  serverSaves : List SaveRec
  serverActive : Int × String
  serverSaveResp : ServerResp
  puts : List CC

/-- ESIRemote.update_active: replace the active scenario fields from the
server snapshot (Active.update_values overwrites both fields and clears the
Active's own never-used commit_changes). -/
def update_active (w : SaveWorld) : SaveWorld :=
  { w with activeId := w.serverActive.1, activeName := w.serverActive.2 }

/-- ESIRemote.update_saves: reconcile the save list against the server
snapshot, then rebind every top-level save's commit_callback to the session's
_commit_save. -/
def update_saves (w : SaveWorld) : SaveWorld :=
  let p := hGetUpdatedSaves w.store w.saveFiles w.serverSaves
  let st := p.2.foldl (fun s r => s.setCallback r Callback.sessionCommitSave) p.1
  { w with store := st, saveFiles := p.2 }

/-- One iteration of the _commit_save loop body for the save at address r:
if it has pending changes and nothing was committed yet, PUT the payload,
check the acknowledgement (raising ValueError otherwise), re-fetch active and
saves, and mark committed; in every case finish with
save.commit_changes = {} (rebinding to a fresh empty dict). -/
def commitSaveStep (w : SaveWorld) (committed : Bool) (r : Nat) :
    Except String (SaveWorld × Bool) :=
  let cc := w.store.dict (w.store.save r).ccRef
  if !cc.isEmpty && !committed then
    let w1 := { w with puts := w.puts ++ [cc] }
    if w1.serverSaveResp ≠ goodSaveResp then
      Except.error "ValueError: Answer from server not as expected"
    else
      let w2 := update_saves (update_active w1)
      let p := w2.store.allocDict []
      Except.ok ({ w2 with store := p.1.setCCRef r p.2 }, true)
  else
    let p := w.store.allocDict []
    Except.ok ({ w with store := p.1.setCCRef r p.2 }, committed)

/-- ESIRemote._commit_save: no-op unless force or autocommit; otherwise walk
the save list captured at entry, committing at most the first dirty save and
clearing each visited save's pending changes. -/
def commitSave (w : SaveWorld) (force : Bool) : Except String SaveWorld :=
  if !(force || w.autocommit) then Except.ok w
  else
    (w.saveFiles.foldlM (fun (acc : SaveWorld × Bool) r => commitSaveStep acc.1 acc.2 r)
      (w, false)).map Prod.fst

/-- Whether the sub-save at address s has a non-empty commit_changes dict. -/
def dirtySub (st : SStore) (s : Nat) : Bool := !(st.dict (st.save s).ccRef).isEmpty

/-- The adoption walk of Save.commit: assign self.commit_changes (by
reference) to the dict of the first sub-save with non-empty pending changes,
if any. -/
def saveAdopt (st : SStore) (r : Nat) : SStore :=
  match (st.save r).sub_saves.find? (dirtySub st) with
  | some s => st.setCCRef r (st.save s).ccRef
  | none => st

/-- Save.commit: adopt the first dirty sub-save's dict, then invoke the commit
callback with the given force flag.  The callback chain (sub-save to parent to
session) is finite in any parsed tree; fuel makes the dispatch total. -/
def saveCommitFuel : Nat → SaveWorld → Nat → Bool → Except String SaveWorld
  | 0, _, _, _ => Except.error "recursion limit"
  | Nat.succ fuel, w, r, force =>
      let w1 : SaveWorld := { w with store := saveAdopt w.store r }
      match (w1.store.save r).callback with
      | Callback.defaultRaise =>
          Except.error "NotImplementedError: commit needs to be replaced by a function"
      | Callback.parentCommit p => saveCommitFuel fuel w1 p force
      | Callback.sessionCommitSave => commitSave w1 force

/-- The commit-delegate dispatch performed by Save.commit after the adoption
walk (Base.commit calls self.commit_callback(force)). -/
def saveDispatch (fuel : Nat) (w : SaveWorld) (r : Nat) (force : Bool) :
    Except String SaveWorld :=
  match (w.store.save r).callback with
  | Callback.defaultRaise =>
      Except.error "NotImplementedError: commit needs to be replaced by a function"
  | Callback.parentCommit p => saveCommitFuel fuel w p force
  | Callback.sessionCommitSave => commitSave w force

/-- Save.load: stage {"absolutePath": self.absolute_path} in the save's own
commit_changes dict (mutating the dict object), then commit with the given
force flag. -/
def saveLoad (fuel : Nat) (w : SaveWorld) (r : Nat) (forceCommit : Bool) :
    Except String SaveWorld :=
  let obj := w.store.save r
  let st := w.store.setDict obj.ccRef
    (dictInsert (w.store.dict obj.ccRef) "absolutePath" (JVal.str obj.absolute_path))
  saveCommitFuel fuel { w with store := st } r forceCommit

/-! ## Store-based model of OperatorActor objects and the actor commit path -/

/-- The value of an actor's commit_callback: the raising default or the
session's _commit_operator_actors. -/
inductive ACallback where
  | defaultRaise
  | session
deriving DecidableEq

/-- A child entity (Property / PropertyArray / PropertyEnum / Action) as the
actor commit path sees it: its name and its commit_changes reference.  The
children's own field semantics (value conversion, enum membership) are
modelled at the value level above. -/
structure ChildObj where
  name : String
  ccRef : Nat

/-- An OperatorActor object in the store. -/
structure ActorObj where
  name : String
  id : Int
  is_visible : Bool
  type : String
  properties : List ChildObj
  property_arrays : List ChildObj
  property_enums : List ChildObj
  actions : List ChildObj
  ccRef : Nat
  callback : ACallback

/-- Placeholder for out-of-range actor addresses. -/
def dummyActor : ActorObj :=
  { name := "", id := 0, is_visible := false, type := "", properties := [],
    property_arrays := [], property_enums := [], actions := [], ccRef := 0,
    callback := ACallback.defaultRaise }

/-- Placeholder for out-of-range child indices. -/
def dummyChild : ChildObj := { name := "", ccRef := 0 }

/-- The store of OperatorActor objects and commit_changes dicts (children's
dicts live in the same dict store). -/
structure AStore where
  actors : List ActorObj
  dicts : List CC

/-- Dereference an actor address. -/
def AStore.actor (st : AStore) (r : Nat) : ActorObj := st.actors.getD r dummyActor

/-- Dereference a commit_changes dict address. -/
def AStore.dict (st : AStore) (i : Nat) : CC := st.dicts.getD i []

/-- Allocate a new commit_changes dict. -/
def AStore.allocDict (st : AStore) (d : CC) : AStore × Nat :=
  ({ st with dicts := st.dicts ++ [d] }, st.dicts.length)

/-- Allocate a new actor object. -/
def AStore.allocActor (st : AStore) (o : ActorObj) : AStore × Nat :=
  ({ st with actors := st.actors ++ [o] }, st.actors.length)

/-- Mutate an actor object in place. -/
def AStore.updateActor (st : AStore) (r : Nat) (f : ActorObj → ActorObj) : AStore :=
  { st with actors := st.actors.set r (f (st.actor r)) }

/-- Overwrite a commit_changes dict in place. -/
def AStore.setDict (st : AStore) (i : Nat) (d : CC) : AStore :=
  { st with dicts := st.dicts.set i d }

/-- actor.commit_changes = dict-object rebinding. -/
def AStore.setACCRef (st : AStore) (r : Nat) (i : Nat) : AStore :=
  st.updateActor r (fun o => { o with ccRef := i })

/-- actor.commit_callback = f. -/
def AStore.setACallback (st : AStore) (r : Nat) (cb : ACallback) : AStore :=
  st.updateActor r (fun o => { o with callback := cb })

/-- models.check_updates: collect the commit_changes of every item whose dict
is non-empty, in iteration order.  (The Python list holds references to the
dicts; no mutation happens between collection and the PUT that serializes
them, so the value snapshot is observationally faithful.) -/
def check_updates (st : AStore) (items : List ChildObj) : List CC :=
  items.foldl (fun acc c =>
    if !(st.dict c.ccRef).isEmpty then acc ++ [st.dict c.ccRef] else acc) []

/-- A wire record for a child entity; only the commit bookkeeping of children
matters on this path, so the record is abstracted to its name. -/
structure ChildRec where
  name : String

/-- A wire record from GET operatoractors for one actor. -/
structure ActorRec where
  name : String
  id : Int
  isVisible : Bool
  type : String
  properties : List ChildRec
  propertyArrays : List ChildRec
  propertyEnums : List ChildRec
  actions : List ChildRec

/-- Parse a list of child records: each child gets a fresh empty
commit_changes dict. -/
def childParseList (st : AStore) (recs : List ChildRec) : AStore × List ChildObj :=
  recs.foldl (fun (acc : AStore × List ChildObj) rec =>
    let p := acc.1.allocDict []
    (p.1, acc.2 ++ [{ name := rec.name, ccRef := p.2 }])) (st, [])

/-- OperatorActor.parse (packaged implementation): parsing any propertyArrays
entry raises NotImplementedError from PropertyArray.__init__; otherwise parse
the child collections, construct the actor with a fresh empty dict and the
default raising callback.  (The children's commit_callback rebinding to
actor.commit is realised in the model by actorCommit taking the owning actor's
address.) -/
def actorParse (st : AStore) (rec : ActorRec) : Except String (AStore × Nat) :=
  if !rec.propertyArrays.isEmpty then
    Except.error "NotImplementedError: PropertyArrays are not implemented yet"
  else
    let p1 := childParseList st rec.properties
    let p2 := childParseList p1.1 rec.propertyEnums
    let p3 := childParseList p2.1 rec.actions
    let p4 := p3.1.allocDict []
    let p5 := p4.1.allocActor
      { name := rec.name, id := rec.id, is_visible := rec.isVisible, type := rec.type,
        properties := p1.2, property_arrays := [], property_enums := p2.2,
        actions := p3.2, ccRef := p4.2, callback := ACallback.defaultRaise }
    Except.ok (p5.1, p5.2)

/-- get_updated_values instantiated at actor objects, matching by id. -/
def hGetUpdatedActors (st : AStore) (oldRefs : List Nat) (recs : List ActorRec) :
    Except String (AStore × List Nat) :=
  let old_items_dict := oldRefs.foldl (fun d r => dictInsert d (st.actor r).id r) []
  recs.foldlM (fun (acc : AStore × List Nat) rec => do
    let p1 ← actorParse acc.1 rec
    let chosen := (dictGet? old_items_dict rec.id).getD p1.2
    let p2 := p1.1.allocDict []
    pure (p2.1.setACCRef chosen p2.2, acc.2 ++ [chosen])) (st, [])

/-- The exact acknowledgement _commit_operator_actors requires. -/
def goodActorResp : ServerResp := [("answer", "actor has been updated")]

/-- The session state relevant to the operator-actor commit path. -/
structure ActorWorld where
  store : AStore
  operatorActors : List Nat
  autocommit : Bool
  serverActors : List ActorRec
  serverActorResp : ServerResp
  puts : List CC

/-- ESIRemote.update_operator_actors: reconcile the actor list against the
server snapshot, then rebind every actor's commit_callback to the session's
_commit_operator_actors. -/
def update_operator_actors (w : ActorWorld) : Except String ActorWorld := do
  let p ← hGetUpdatedActors w.store w.operatorActors w.serverActors
  let st := p.2.foldl (fun s r => s.setACallback r ACallback.session) p.1
  pure { w with store := st, operatorActors := p.2 }

/-- One iteration of the _commit_operator_actors loop for the actor at r:
if its commit_changes is non-empty, PUT the payload, check the
acknowledgement, and rebind its commit_changes to a fresh empty dict. -/
def commitActorStep (w : ActorWorld) (r : Nat) : Except String ActorWorld :=
  let cc := w.store.dict (w.store.actor r).ccRef
  if !cc.isEmpty then
    let w1 := { w with puts := w.puts ++ [cc] }
    if w1.serverActorResp ≠ goodActorResp then
      Except.error "ValueError: Answer from server not as expected"
    else
      let p := w1.store.allocDict []
      Except.ok { w1 with store := p.1.setACCRef r p.2 }
  else Except.ok w

/-- ESIRemote._commit_operator_actors: no-op unless force or autocommit;
otherwise commit every dirty actor, then re-fetch and reconcile the actor
list. -/
def commitOperatorActors (w : ActorWorld) (force : Bool) : Except String ActorWorld :=
  if !(force || w.autocommit) then Except.ok w
  else do
    let w1 ← w.operatorActors.foldlM (fun acc r => commitActorStep acc r) w
    update_operator_actors w1

/-- OperatorActor.commit: collect every child collection's dirty dicts, stage
them under the collection's key, tag the payload with the actor's id when
anything is pending, and invoke the commit callback. -/
def actorCommit (w : ActorWorld) (r : Nat) (force : Bool) : Except String ActorWorld :=
  let a := w.store.actor r
  let properties := check_updates w.store a.properties
  let property_arrays := check_updates w.store a.property_arrays
  let property_enums := check_updates w.store a.property_enums
  let actions := check_updates w.store a.actions
  let st0 := w.store
  let st1 := if !properties.isEmpty then
      st0.setDict a.ccRef (dictInsert (st0.dict a.ccRef) "properties"
        (JVal.arr (properties.map JVal.obj))) else st0
  let st2 := if !property_arrays.isEmpty then
      st1.setDict a.ccRef (dictInsert (st1.dict a.ccRef) "propertyArrays"
        (JVal.arr (property_arrays.map JVal.obj))) else st1
  let st3 := if !property_enums.isEmpty then
      st2.setDict a.ccRef (dictInsert (st2.dict a.ccRef) "propertyEnums"
        (JVal.arr (property_enums.map JVal.obj))) else st2
  let st4 := if !actions.isEmpty then
      st3.setDict a.ccRef (dictInsert (st3.dict a.ccRef) "actions"
        (JVal.arr (actions.map JVal.obj))) else st3
  let st5 := if !(st4.dict a.ccRef).isEmpty then
      st4.setDict a.ccRef (dictInsert (st4.dict a.ccRef) "id" (JVal.int a.id)) else st4
  match a.callback with
  | ACallback.defaultRaise =>
      Except.error "NotImplementedError: commit needs to be replaced by a function"
  | ACallback.session => commitOperatorActors { w with store := st5 } force

/-- OperatorActor.is_visible setter: set the attribute, stage
{"isVisible": bool(value)} in the actor's own commit_changes, then
self.commit() (which is OperatorActor.commit with force=False). -/
def setIsVisible (w : ActorWorld) (r : Nat) (value : Bool) : Except String ActorWorld :=
  let st := w.store.updateActor r (fun a => { a with is_visible := value })
  let st1 := st.setDict (st.actor r).ccRef
    (dictInsert (st.dict (st.actor r).ccRef) "isVisible" (JVal.bool value))
  actorCommit { w with store := st1 } r false

/-- Property.value setter restricted to its commit bookkeeping: stage the
json-encoded value and the property's name in the child's commit_changes dict,
then commit; the child's commit_callback is the owning actor's commit method
with force=False. -/
def propertyValueSet (w : ActorWorld) (r : Nat) (childIdx : Nat) (jsonValue : String) :
    Except String ActorWorld :=
  let c := (w.store.actor r).properties.getD childIdx dummyChild
  let st1 := w.store.setDict c.ccRef
    (dictInsert (w.store.dict c.ccRef) "value" (JVal.str jsonValue))
  let st2 := st1.setDict c.ccRef (dictInsert (st1.dict c.ccRef) "name" (JVal.str c.name))
  actorCommit { w with store := st2 } r false

/-! ## Concrete example sessions used by the counterexamples and witnesses -/

/-- A server snapshot with one top-level save "top" holding one sub-save
"sub". -/
def exServerSaves : List SaveRec :=
  [SaveRec.mk 1 "top" "cat" "top" [SaveRec.mk 2 "sub" "cat" "sub" []]]

/-- The session after __init__ ran update_saves against exServerSaves: the
top-level save is at address 1 (sub-save at address 0) and the session list is
[1]. -/
def exSaveWorld : SaveWorld :=
  update_saves
    { store := { saves := [], dicts := [] }, saveFiles := [], activeId := 0,
      activeName := "", autocommit := true, serverSaves := exServerSaves,
      serverActive := (2, "sub"), serverSaveResp := goodSaveResp, puts := [] }

/-- A server snapshot with one actor (id 1) owning one property "p". -/
def exServerActors : List ActorRec :=
  [{ name := "a", id := 1, isVisible := true, type := "t",
     properties := [{ name := "p" }], propertyArrays := [], propertyEnums := [],
     actions := [] }]

/-- The session after __init__ ran update_operator_actors against
exServerActors: the actor is at address 0 and its property child's
commit_changes dict is at address 0 of the dict store. -/
def exActorWorld : ActorWorld :=
  match update_operator_actors
    { store := { actors := [], dicts := [] }, operatorActors := [],
      autocommit := true, serverActors := exServerActors,
      serverActorResp := goodActorResp, puts := [] } with
  | Except.ok w => w
  | Except.error _ =>
      { store := { actors := [], dicts := [] }, operatorActors := [],
        autocommit := true, serverActors := exServerActors,
        serverActorResp := goodActorResp, puts := [] }

/-- The driver sequence behind the is_visible payload question: stage and
commit a property value (the child's dict stays non-empty afterwards), then
assign is_visible on the same actor. -/
def exC8Run : Except String ActorWorld := do
  let w1 ← propertyValueSet exActorWorld 0 0 "true"
  setIsVisible w1 0 false

/-- A store with a parent save at address 3 holding three sub-saves at
addresses 0, 1, 2, where sub-saves[0] and sub-saves[2] are both dirty. -/
def exAdoptStore : SStore :=
  { saves :=
      [{ scenario_id := 1, scenario_name := "s0", category_name := "c",
         absolute_path := "p0", sub_saves := [], ccRef := 0,
         callback := Callback.parentCommit 3 },
       { scenario_id := 2, scenario_name := "s1", category_name := "c",
         absolute_path := "p1", sub_saves := [], ccRef := 1,
         callback := Callback.parentCommit 3 },
       { scenario_id := 3, scenario_name := "s2", category_name := "c",
         absolute_path := "p2", sub_saves := [], ccRef := 2,
         callback := Callback.parentCommit 3 },
       { scenario_id := 4, scenario_name := "top", category_name := "c",
         absolute_path := "top", sub_saves := [0, 1, 2], ccRef := 3,
         callback := Callback.sessionCommitSave }],
    dicts := [[("absolutePath", JVal.str "p0")], [],
              [("absolutePath", JVal.str "p2")], [("stale", JVal.int 7)]] }

/-- A session world around exAdoptStore. -/
def exAdoptWorld : SaveWorld :=
  { store := exAdoptStore, saveFiles := [3], activeId := 0, activeName := "",
    autocommit := true, serverSaves := [], serverActive := (0, ""),
    serverSaveResp := goodSaveResp, puts := [] }

/-! ## Verification-layer predicates -/

/-- save.commit_changes = {}: rebind the save's pending-changes attribute to a
freshly allocated empty dict (the old dict object is untouched). -/
def rebindEmptyS (st : SStore) (r : Nat) : SStore :=
  (st.allocDict []).1.setCCRef r (st.allocDict []).2

/-- The save at address r is a live object whose own pending-changes dict is
empty. -/
def CleanS (st : SStore) (r : Nat) : Prop :=
  r < st.saves.length ∧ st.dict ((st.save r).ccRef) = []

/-- The actor at address r is a live object whose own pending-changes dict is
empty. -/
def CleanA (st : AStore) (r : Nat) : Prop :=
  r < st.actors.length ∧ st.dict ((st.actor r).ccRef) = []

/-- How the save store evolves along the session commit path: objects and
dicts are only allocated (never deallocated), an existing dict object is never
mutated, every newly allocated dict is empty, and an existing save object is
either untouched or left clean. -/
structure SExt (st st' : SStore) : Prop where
  savesLen : st.saves.length ≤ st'.saves.length
  dictsLen : st.dicts.length ≤ st'.dicts.length
  dictOld : ∀ i, i < st.dicts.length → st'.dict i = st.dict i
  dictNew : ∀ i, st.dicts.length ≤ i → st'.dict i = []
  saveOld : ∀ r, r < st.saves.length → st'.save r = st.save r ∨ CleanS st' r

/-- How the actor store evolves along the session commit path. -/
structure AExt (st st' : AStore) : Prop where
  actorsLen : st.actors.length ≤ st'.actors.length
  dictsLen : st.dicts.length ≤ st'.dicts.length
  dictOld : ∀ i, i < st.dicts.length → st'.dict i = st.dict i
  dictNew : ∀ i, st.dicts.length ≤ i → st'.dict i = []
  actorOld : ∀ r, r < st.actors.length → st'.actor r = st.actor r ∨ CleanA st' r

/-! # Theorems

## Basic store lemmas -/

theorem save_updateSave_self (st : SStore) (r : Nat) (f : SaveObj → SaveObj)
    (hr : r < st.saves.length) : (st.updateSave r f).save r = f (st.save r) := by
  unfold SStore.updateSave SStore.save
  simp only [List.getD_eq_getElem?_getD]
  rw [List.getElem?_set_self (by simpa using hr)]
  rfl

theorem save_updateSave_ne (st : SStore) (r s : Nat) (f : SaveObj → SaveObj)
    (h : s ≠ r) : (st.updateSave r f).save s = st.save s := by
  unfold SStore.updateSave SStore.save
  simp only [List.getD_eq_getElem?_getD]
  rw [List.getElem?_set_ne (fun hEq => h hEq.symm)]

theorem dict_updateSave (st : SStore) (r : Nat) (f : SaveObj → SaveObj) (i : Nat) :
    (st.updateSave r f).dict i = st.dict i := rfl

theorem saves_length_updateSave (st : SStore) (r : Nat) (f : SaveObj → SaveObj) :
    (st.updateSave r f).saves.length = st.saves.length := List.length_set ..

theorem dicts_length_updateSave (st : SStore) (r : Nat) (f : SaveObj → SaveObj) :
    (st.updateSave r f).dicts.length = st.dicts.length := rfl

theorem save_allocDict (st : SStore) (d : CC) (r : Nat) :
    (st.allocDict d).1.save r = st.save r := rfl

theorem dict_allocDict_lt (st : SStore) (d : CC) (i : Nat) (h : i < st.dicts.length) :
    (st.allocDict d).1.dict i = st.dict i := by
  unfold SStore.allocDict SStore.dict
  simp only [List.getD_eq_getElem?_getD]
  rw [List.getElem?_append_left h]

theorem dict_allocDict_new (st : SStore) (d : CC) :
    (st.allocDict d).1.dict (st.allocDict d).2 = d := by
  unfold SStore.allocDict SStore.dict
  simp only [List.getD_eq_getElem?_getD]
  rw [List.getElem?_concat_length]
  rfl

theorem dict_allocDict_ge (st : SStore) (i : Nat) (h : st.dicts.length ≤ i) :
    (st.allocDict []).1.dict i = [] := by
  rcases Nat.lt_or_ge st.dicts.length (i + 1) with h1 | h1
  · have hgt : st.dicts.length < i + 1 := h1
    rcases Nat.eq_or_lt_of_le h with hEq | hlt
    · rw [← hEq]; exact dict_allocDict_new st []
    · unfold SStore.allocDict SStore.dict
      simp only [List.getD_eq_getElem?_getD]
      rw [List.getElem?_eq_none_iff.mpr (by simpa using hlt)]
      rfl
  · omega

theorem save_allocSave_lt (st : SStore) (o : SaveObj) (r : Nat) (h : r < st.saves.length) :
    (st.allocSave o).1.save r = st.save r := by
  unfold SStore.allocSave SStore.save
  simp only [List.getD_eq_getElem?_getD]
  rw [List.getElem?_append_left h]

theorem save_allocSave_new (st : SStore) (o : SaveObj) :
    (st.allocSave o).1.save (st.allocSave o).2 = o := by
  unfold SStore.allocSave SStore.save
  simp only [List.getD_eq_getElem?_getD]
  rw [List.getElem?_concat_length]
  rfl

theorem dict_allocSave (st : SStore) (o : SaveObj) (i : Nat) :
    (st.allocSave o).1.dict i = st.dict i := rfl

theorem sdict_ne_nil_lt (st : SStore) (i : Nat) (h : st.dict i ≠ []) :
    i < st.dicts.length := by
  by_contra hn
  apply h
  unfold SStore.dict
  rw [List.getD_eq_getElem?_getD, List.getElem?_eq_none_iff.mpr (Nat.le_of_not_lt hn)]
  rfl

theorem actor_updateActor_self (st : AStore) (r : Nat) (f : ActorObj → ActorObj)
    (hr : r < st.actors.length) : (st.updateActor r f).actor r = f (st.actor r) := by
  unfold AStore.updateActor AStore.actor
  simp only [List.getD_eq_getElem?_getD]
  rw [List.getElem?_set_self (by simpa using hr)]
  rfl

theorem actor_updateActor_ne (st : AStore) (r s : Nat) (f : ActorObj → ActorObj)
    (h : s ≠ r) : (st.updateActor r f).actor s = st.actor s := by
  unfold AStore.updateActor AStore.actor
  simp only [List.getD_eq_getElem?_getD]
  rw [List.getElem?_set_ne (fun hEq => h hEq.symm)]

theorem adict_updateActor (st : AStore) (r : Nat) (f : ActorObj → ActorObj) (i : Nat) :
    (st.updateActor r f).dict i = st.dict i := rfl

theorem actors_length_updateActor (st : AStore) (r : Nat) (f : ActorObj → ActorObj) :
    (st.updateActor r f).actors.length = st.actors.length := List.length_set ..

theorem actor_allocDict (st : AStore) (d : CC) (r : Nat) :
    (st.allocDict d).1.actor r = st.actor r := rfl

theorem adict_allocDict_lt (st : AStore) (d : CC) (i : Nat) (h : i < st.dicts.length) :
    (st.allocDict d).1.dict i = st.dict i := by
  unfold AStore.allocDict AStore.dict
  simp only [List.getD_eq_getElem?_getD]
  rw [List.getElem?_append_left h]

theorem adict_allocDict_new (st : AStore) (d : CC) :
    (st.allocDict d).1.dict (st.allocDict d).2 = d := by
  unfold AStore.allocDict AStore.dict
  simp only [List.getD_eq_getElem?_getD]
  rw [List.getElem?_concat_length]
  rfl

theorem adict_allocDict_ge (st : AStore) (i : Nat) (h : st.dicts.length ≤ i) :
    (st.allocDict []).1.dict i = [] := by
  rcases Nat.eq_or_lt_of_le h with hEq | hlt
  · rw [← hEq]; exact adict_allocDict_new st []
  · unfold AStore.allocDict AStore.dict
    simp only [List.getD_eq_getElem?_getD]
    rw [List.getElem?_eq_none_iff.mpr (by simpa using hlt)]
    rfl

theorem actor_allocActor_lt (st : AStore) (o : ActorObj) (r : Nat)
    (h : r < st.actors.length) : (st.allocActor o).1.actor r = st.actor r := by
  unfold AStore.allocActor AStore.actor
  simp only [List.getD_eq_getElem?_getD]
  rw [List.getElem?_append_left h]

theorem actor_allocActor_new (st : AStore) (o : ActorObj) :
    (st.allocActor o).1.actor (st.allocActor o).2 = o := by
  unfold AStore.allocActor AStore.actor
  simp only [List.getD_eq_getElem?_getD]
  rw [List.getElem?_concat_length]
  rfl

theorem adict_allocActor (st : AStore) (o : ActorObj) (i : Nat) :
    (st.allocActor o).1.dict i = st.dict i := rfl

theorem adict_ne_nil_lt (st : AStore) (i : Nat) (h : st.dict i ≠ []) :
    i < st.dicts.length := by
  by_contra hn
  apply h
  unfold AStore.dict
  rw [List.getD_eq_getElem?_getD, List.getElem?_eq_none_iff.mpr (Nat.le_of_not_lt hn)]
  rfl

/-! ## C5: PropertyEnum current_value membership guard -/

/-- C5: for every PropertyEnum and every value not contained in its all_values
list, assigning that value to current_value raises ValueError; since the
setter checks membership before any mutation, the error return means no
payload entry was staged, the commit delegate was not invoked, and the
pending-changes map and current_value are exactly what they were before the
attempt. -/
theorem set_current_value_guard (pe : PropertyEnum) (value : EnumField)
    (h : value ∉ pe.all_values) :
    PropertyEnum.setCurrentValue pe value =
      Except.error "ValueError: Value is not in all_values." := by
  unfold PropertyEnum.setCurrentValue
  simp [h]

/-- Witness for set_current_value_guard at a concrete enum and value. -/
theorem set_current_value_guard_witness :
    ({ enum_field_id := 2, enum_field_value := "B" } : EnumField) ∉
      [({ enum_field_id := 1, enum_field_value := "A" } : EnumField)] ∧
    PropertyEnum.setCurrentValue
      { name := "door", type := "enum", display_name := "Door",
        all_values := [{ enum_field_id := 1, enum_field_value := "A" }],
        current_value := { enum_field_id := 1, enum_field_value := "A" },
        commit_changes := [("name", JVal.str "door")] }
      { enum_field_id := 2, enum_field_value := "B" } =
      Except.error "ValueError: Value is not in all_values." :=
  ⟨by decide, set_current_value_guard _ _ (by decide)⟩

/-! ## C7: PropertyArray construction -/

/-- C7 counterexample: in the legacy top-level models.py, constructing a
PropertyArray does NOT signal an error: __init__ merely prints a notice and
then sets the keyword arguments, so a PropertyArray instance is produced.
This falsifies the claim that every construction attempt signals a fatal
error. -/
theorem property_array_legacy_constructs :
    PropertyArray.initLegacy [("someKey", JVal.int 1)] =
      Except.ok { kwargs := [("someKey", JVal.int 1)] } ∧
    PropertyArray.parseLegacy [("someKey", JVal.int 1)] =
      Except.ok { kwargs := [("someKey", JVal.int 1)] } := ⟨rfl, rfl⟩

/-- C7 amended: in the packaged src/esi_remote implementation every attempt to
construct a PropertyArray (directly or via parse, with any keyword arguments)
raises NotImplementedError at construction time, so no PropertyArray instance
with defined committed behavior is produced there; the legacy top-level module
instead prints a notice and constructs successfully. -/
theorem property_array_packaged_raises (kwargs : List (String × JVal)) :
    PropertyArray.initPackaged kwargs =
      Except.error "NotImplementedError: PropertyArrays are not implemented yet" ∧
    PropertyArray.parsePackaged kwargs =
      Except.error "NotImplementedError: PropertyArrays are not implemented yet" :=
  ⟨rfl, rfl⟩

/-! ## C6: session commit gating -/

/-- C6: both session commit paths, called with force=False while the session's
autocommit flag is disabled, return immediately with the session state
unchanged: no PUT is issued (the puts log is part of the returned, unchanged
world), no pending-changes map is read or cleared, and no collection is
re-fetched. -/
theorem commit_gating_noop (ws : SaveWorld) (wa : ActorWorld)
    (hs : ws.autocommit = false) (ha : wa.autocommit = false) :
    commitSave ws false = Except.ok ws ∧
    commitOperatorActors wa false = Except.ok wa := by
  constructor
  · unfold commitSave
    simp [hs]
  · unfold commitOperatorActors
    simp [ha]

/-- Witness for commit_gating_noop at concrete sessions with autocommit off. -/
theorem commit_gating_noop_witness :
    ({ store := { saves := [], dicts := [] }, saveFiles := [], activeId := 0,
       activeName := "", autocommit := false, serverSaves := [],
       serverActive := (0, ""), serverSaveResp := goodSaveResp,
       puts := [] } : SaveWorld).autocommit = false ∧
    ({ store := { actors := [], dicts := [] }, operatorActors := [],
       autocommit := false, serverActors := [], serverActorResp := goodActorResp,
       puts := [] } : ActorWorld).autocommit = false ∧
    (commitSave
      { store := { saves := [], dicts := [] }, saveFiles := [], activeId := 0,
        activeName := "", autocommit := false, serverSaves := [],
        serverActive := (0, ""), serverSaveResp := goodSaveResp, puts := [] }
      false =
      Except.ok
        { store := { saves := [], dicts := [] }, saveFiles := [], activeId := 0,
          activeName := "", autocommit := false, serverSaves := [],
          serverActive := (0, ""), serverSaveResp := goodSaveResp, puts := [] } ∧
     commitOperatorActors
      { store := { actors := [], dicts := [] }, operatorActors := [],
        autocommit := false, serverActors := [], serverActorResp := goodActorResp,
        puts := [] }
      false =
      Except.ok
        { store := { actors := [], dicts := [] }, operatorActors := [],
          autocommit := false, serverActors := [], serverActorResp := goodActorResp,
          puts := [] }) :=
  ⟨rfl, rfl, commit_gating_noop _ _ rfl rfl⟩

/-! ## C3: PropertyEnum.update_values reuse of a non-matching field -/

/-- C3 evaluation at the failing input: with all_values = [(1, "A")] and an
incoming snapshot whose only enum value is (2, "B") with current value id 2,
the inner search loop finds no match, but the Python loop variable enum_field
is left bound to the last element (1, "A") (which is truthy, so the
"if not enum_field" parse branch is skipped); the existing non-matching field
is therefore reused under its id 1, and resolving the incoming current value
id 2 in the rebuilt dict then fails, although the incoming snapshot is
perfectly consistent.  The claim (and the sentinel intent of the code,
enum_field = None followed by a truthiness test) requires a fresh EnumField
(2, "B") to be constructed instead. -/
theorem update_values_nonmatch_reuses_last_field :
    pickEnumField [{ enum_field_id := 1, enum_field_value := "A" }]
        { enumFieldId := 2, enumFieldValue := "B" } =
      some { enum_field_id := 1, enum_field_value := "A" } ∧
    PropertyEnum.update_values
      { name := "door", type := "enum", display_name := "Door",
        all_values := [{ enum_field_id := 1, enum_field_value := "A" }],
        current_value := { enum_field_id := 1, enum_field_value := "A" },
        commit_changes := [] }
      { name := "door", type := "enum", displayName := "Door",
        allValues := [{ enumFieldId := 2, enumFieldValue := "B" }],
        currentValue := { enumFieldId := 2, enumFieldValue := "B" } } =
      Except.error "KeyError: currentValue enumFieldId not in new_enums" :=
  ⟨rfl, rfl⟩

/-! ## C4: Save.commit adopts exactly the first dirty sub-save -/

/-- C4: for every Save whose sub-save list contains a dirty sub-save, the
adoption walk of Save.commit assigns the parent's pending-changes to exactly
the first dirty sub-save's map in iteration order (the parent's dict then IS
that sub-save's dict, so it is neither merged with nor appended to any later
dirty sub-save's map), and Save.commit is precisely this adoption followed by
the dispatch to the parent's commit delegate with the given force flag. -/
theorem save_commit_adopts_first_dirty (w : SaveWorld) (r s : Nat) (force : Bool)
    (fuel : Nat) (hr : r < w.store.saves.length)
    (hfind : (w.store.save r).sub_saves.find? (dirtySub w.store) = some s) :
    ((saveAdopt w.store r).save r).ccRef = (w.store.save s).ccRef ∧
    (saveAdopt w.store r).dict (((saveAdopt w.store r).save r).ccRef) =
      w.store.dict ((w.store.save s).ccRef) ∧
    saveCommitFuel (fuel + 1) w r force =
      saveDispatch fuel { w with store := saveAdopt w.store r } r force := by
  have hadopt : saveAdopt w.store r = w.store.setCCRef r (w.store.save s).ccRef := by
    unfold saveAdopt
    rw [hfind]
  have h1 : ((saveAdopt w.store r).save r).ccRef = (w.store.save s).ccRef := by
    rw [hadopt]
    unfold SStore.setCCRef
    rw [save_updateSave_self _ _ _ hr]
  refine ⟨h1, ?_, ?_⟩
  · rw [h1, hadopt]
    rfl
  · rfl

/-- Witness for save_commit_adopts_first_dirty: in exAdoptStore, sub-saves[0]
(address 0) and sub-saves[2] (address 2) are both dirty; adoption leaves the
parent's pending-changes dict exactly equal to sub-saves[0]'s map
{"absolutePath": "p0"} - and in particular not containing sub-saves[2]'s
entry. -/
theorem save_commit_adopts_first_dirty_witness :
    (3 : Nat) < exAdoptWorld.store.saves.length ∧
    (exAdoptWorld.store.save 3).sub_saves.find? (dirtySub exAdoptWorld.store) = some 0 ∧
    (saveAdopt exAdoptWorld.store 3).dict (((saveAdopt exAdoptWorld.store 3).save 3).ccRef) =
      [("absolutePath", JVal.str "p0")] := by
  refine ⟨by decide, rfl, ?_⟩
  have h := save_commit_adopts_first_dirty exAdoptWorld 3 0 true 5 (by decide) rfl
  rw [h.2.1]
  rfl

/-! ## C10: adoption is by reference, not by copy -/

/-- C10: if a Save has a non-empty pending-changes dict of its own and at
least one dirty sub-save, the adoption walk of Save.commit rebinds the
parent's pending-changes attribute to the first dirty sub-save's dict object:
afterwards the parent's ccRef IS the sub-save's ccRef (the very same mapping
object, so the parent's own staged entries are discarded, not merged), and a
later rebinding of the parent's attribute to a fresh empty dict
(save.commit_changes = {}) leaves the sub-save's dict unchanged and still
non-empty. -/
theorem save_commit_aliases_first_dirty_sub (w : SaveWorld) (r s : Nat)
    (hr : r < w.store.saves.length) (hsr : s ≠ r)
    (hfind : (w.store.save r).sub_saves.find? (dirtySub w.store) = some s)
    (hown : w.store.dict ((w.store.save r).ccRef) ≠ []) :
    ((saveAdopt w.store r).save r).ccRef = ((saveAdopt w.store r).save s).ccRef ∧
    (rebindEmptyS (saveAdopt w.store r) r).dict
        (((rebindEmptyS (saveAdopt w.store r) r).save r).ccRef) = [] ∧
    (rebindEmptyS (saveAdopt w.store r) r).dict
        (((rebindEmptyS (saveAdopt w.store r) r).save s).ccRef) =
      w.store.dict ((w.store.save s).ccRef) ∧
    w.store.dict ((w.store.save s).ccRef) ≠ [] := by
  have hdirty : dirtySub w.store s = true := List.find?_some hfind
  have hsub_ne : w.store.dict ((w.store.save s).ccRef) ≠ [] := by
    unfold dirtySub at hdirty
    simpa using hdirty
  have hsub_lt : (w.store.save s).ccRef < w.store.dicts.length :=
    sdict_ne_nil_lt _ _ hsub_ne
  have hadopt : saveAdopt w.store r = w.store.setCCRef r (w.store.save s).ccRef := by
    unfold saveAdopt
    rw [hfind]
  have hsave_r : ((saveAdopt w.store r).save r).ccRef = (w.store.save s).ccRef := by
    rw [hadopt]
    unfold SStore.setCCRef
    rw [save_updateSave_self _ _ _ hr]
  have hsave_s : (saveAdopt w.store r).save s = w.store.save s := by
    rw [hadopt]
    unfold SStore.setCCRef
    exact save_updateSave_ne _ _ _ _ hsr
  have hr1 : r < (saveAdopt w.store r).saves.length := by
    rw [hadopt]
    unfold SStore.setCCRef
    rw [saves_length_updateSave]
    exact hr
  have hdl1 : (saveAdopt w.store r).dicts.length = w.store.dicts.length := by
    rw [hadopt]
    rfl
  refine ⟨by rw [hsave_r, hsave_s], ?_, ?_, hsub_ne⟩
  · unfold rebindEmptyS SStore.setCCRef
    rw [save_updateSave_self _ _ _ (by simpa using hr1)]
    exact dict_allocDict_new _ []
  · unfold rebindEmptyS SStore.setCCRef
    rw [save_updateSave_ne _ _ _ _ hsr]
    rw [save_allocDict, hsave_s, dict_updateSave,
      dict_allocDict_lt _ _ _ (by rw [hdl1]; exact hsub_lt)]
    rw [hadopt]
    rfl

/-- Witness for save_commit_aliases_first_dirty_sub: in exAdoptStore the
parent (address 3) has its own staged entry {"stale": 7} and dirty sub-saves 0
and 2; after adoption the parent's dict object is sub-save 0's, and after
save.commit_changes = {} on the parent, sub-save 0's dict is still
{"absolutePath": "p0"}. -/
theorem save_commit_aliases_first_dirty_sub_witness :
    ((3 : Nat) < exAdoptWorld.store.saves.length ∧ (0 : Nat) ≠ 3 ∧
     (exAdoptWorld.store.save 3).sub_saves.find? (dirtySub exAdoptWorld.store) = some 0 ∧
     exAdoptWorld.store.dict ((exAdoptWorld.store.save 3).ccRef) ≠ []) ∧
    ((saveAdopt exAdoptWorld.store 3).save 3).ccRef =
      ((saveAdopt exAdoptWorld.store 3).save 0).ccRef ∧
    (rebindEmptyS (saveAdopt exAdoptWorld.store 3) 3).dict
        (((rebindEmptyS (saveAdopt exAdoptWorld.store 3) 3).save 3).ccRef) = [] ∧
    (rebindEmptyS (saveAdopt exAdoptWorld.store 3) 3).dict
        (((rebindEmptyS (saveAdopt exAdoptWorld.store 3) 3).save 0).ccRef) =
      exAdoptWorld.store.dict ((exAdoptWorld.store.save 0).ccRef) ∧
    exAdoptWorld.store.dict ((exAdoptWorld.store.save 0).ccRef) ≠ [] := by
  have hown : exAdoptWorld.store.dict ((exAdoptWorld.store.save 3).ccRef) ≠ [] :=
    fun h => List.cons_ne_nil ("stale", JVal.int 7) [] h
  refine ⟨⟨by decide, by decide, rfl, hown⟩, ?_⟩
  exact save_commit_aliases_first_dirty_sub exAdoptWorld 3 0 (by decide) (by decide) rfl hown

/-! ## C2 counterexample: commit paths leave sub-save / child pending changes -/

/-- C2 counterexample.  Save side: in the session exSaveWorld (one top-level
save at address 1 with one sub-save at address 0), running
save_files[0].sub_saves[0].load() - which stages {"absolutePath": "sub"} on
the sub-save, bubbles through the parent's commit and the session's
_commit_save with force=True - succeeds, yet afterwards the loaded sub-save's
own pending-changes dict still holds {"absolutePath": "sub"}: neither the
_commit_save loop (which only rebinds the saves it iterates) nor
reconciliation (which only clears the entities it returns) ever descends into
sub_saves.  Actor side: in exActorWorld, staging and committing a property
value leaves the child property's pending-changes dict non-empty after the
whole _commit_operator_actors path (PUT, acknowledgement, reconciliation)
completed.  Both runs falsify the claim that every sub-save's and every
child's pending-changes map is empty after the respective commit path. -/
theorem commit_paths_stale_child_counterexample :
    (∃ w, saveLoad 10 exSaveWorld 0 true = Except.ok w ∧
       w.store.dict ((w.store.save 0).ccRef) = [("absolutePath", JVal.str "sub")] ∧
       (w.store.dict ((w.store.save 0).ccRef)).isEmpty = false ∧
       w.store.dict ((w.store.save 1).ccRef) = []) ∧
    (∃ v, propertyValueSet exActorWorld 0 0 "true" = Except.ok v ∧
       v.store.dict (((v.store.actor 0).properties.getD 0 dummyChild).ccRef) =
         [("value", JVal.str "true"), ("name", JVal.str "p")] ∧
       (v.store.dict (((v.store.actor 0).properties.getD 0 dummyChild).ccRef)).isEmpty =
         false ∧
       v.store.dict ((v.store.actor 0).ccRef) = []) :=
  ⟨⟨_, rfl, rfl, rfl, rfl⟩, ⟨_, rfl, rfl, rfl, rfl⟩⟩

/-! ## C8 counterexample: is_visible commit payload can include child changes -/

/-- C8 counterexample: in exC8Run a property value is staged and committed
(the child's dict stays dirty afterwards, see the C2 counterexample), and then
is_visible is assigned on the same actor.  The is_visible setter calls
self.commit(), which is the full OperatorActor.commit and therefore aggregates
the still-dirty child: the second PUT payload contains a "properties" key with
the child's pending changes, falsifying the claim that the payload never
includes pending changes of the actor's children. -/
theorem is_visible_payload_includes_children_counterexample :
    ∃ w, exC8Run = Except.ok w ∧
      dictGet? (w.puts.getD 1 []) "isVisible" = some (JVal.bool false) ∧
      dictGet? (w.puts.getD 1 []) "properties" =
        some (JVal.arr [JVal.obj [("value", JVal.str "true"), ("name", JVal.str "p")]]) :=
  ⟨_, rfl, rfl, rfl⟩

/-! ## Dict lemmas for the reconciler -/

theorem dictGet?_insert {κ α : Type} [DecidableEq κ] (d : List (κ × α)) (k k' : κ)
    (v : α) :
    dictGet? (dictInsert d k v) k' = if k' = k then some v else dictGet? d k' := by
  induction d with
  | nil =>
    by_cases h : k' = k
    · subst h
      simp [dictInsert, dictGet?]
    · rw [if_neg h]
      show (if k = k' then some v else none) = none
      rw [if_neg (fun hEq => h hEq.symm)]
  | cons hd tl ih =>
    obtain ⟨a, b⟩ := hd
    show dictGet? (if a = k then (a, v) :: tl else (a, b) :: dictInsert tl k v) k' = _
    by_cases hak : a = k
    · subst hak
      rw [if_pos rfl]
      show (if a = k' then some v else dictGet? tl k') = _
      by_cases h : k' = a
      · subst h
        simp [dictGet?]
      · rw [if_neg (fun hEq => h hEq.symm), if_neg h]
        show dictGet? tl k' = (if a = k' then some b else dictGet? tl k')
        rw [if_neg (fun hEq => h hEq.symm)]
    · rw [if_neg hak]
      show (if a = k' then some b else dictGet? (dictInsert tl k v) k') = _
      by_cases hak' : a = k'
      · subst hak'
        rw [if_pos rfl, if_neg hak]
        show some b = (if a = a then some b else dictGet? tl a)
        rw [if_pos rfl]
      · rw [if_neg hak', ih]
        by_cases h : k' = k
        · simp [h]
        · rw [if_neg h, if_neg h]
          show _ = (if a = k' then some b else dictGet? tl k')
          rw [if_neg hak']

theorem mem_dictInsert {κ α : Type} [DecidableEq κ] (d : List (κ × α)) (k : κ) (v : α)
    (p : κ × α) (h : p ∈ dictInsert d k v) : p ∈ d ∨ p = (k, v) := by
  induction d with
  | nil =>
    simp [dictInsert] at h
    exact Or.inr h
  | cons hd tl ih =>
    obtain ⟨a, b⟩ := hd
    by_cases hak : a = k
    · subst hak
      simp [dictInsert] at h
      rcases h with h | h
      · exact Or.inr (by simp [h])
      · exact Or.inl (List.mem_cons_of_mem _ h)
    · simp [dictInsert, hak] at h
      rcases h with h | h
      · exact Or.inl (by simp [h])
      · rcases ih h with h' | h'
        · exact Or.inl (List.mem_cons_of_mem _ h')
        · exact Or.inr h'

theorem dictGet?_mem {κ α : Type} [DecidableEq κ] (d : List (κ × α)) (k : κ) (v : α)
    (h : dictGet? d k = some v) : (k, v) ∈ d := by
  induction d with
  | nil => simp [dictGet?] at h
  | cons hd tl ih =>
    obtain ⟨a, b⟩ := hd
    by_cases hak : a = k
    · subst hak
      simp [dictGet?] at h
      simp [h]
    · simp [dictGet?, hak] at h
      exact List.mem_cons_of_mem _ (ih h)

/-- Entries of a dict built by left-folding dictInsert with key function key
satisfy any property holding of the initial entries and of every (key x, x). -/
theorem foldl_dictInsert_entry_prop {κ β : Type} [DecidableEq κ] (key : β → κ)
    (l : List β) (P : κ × β → Prop) :
    ∀ d0 : List (κ × β), (∀ p ∈ d0, P p) → (∀ x ∈ l, P (key x, x)) →
      ∀ p ∈ l.foldl (fun d x => dictInsert d (key x) x) d0, P p := by
  induction l with
  | nil => intro d0 hd0 _ p hp; exact hd0 p hp
  | cons x xs ih =>
    intro d0 hd0 hl p hp
    rw [List.foldl_cons] at hp
    refine ih _ ?_ (fun y hy => hl y (List.mem_cons_of_mem _ hy)) p hp
    intro q hq
    rcases mem_dictInsert _ _ _ _ hq with h | h
    · exact hd0 q h
    · rw [h]; exact hl x (List.mem_cons_self _ _)

theorem dictGet?_foldl_not_mem {κ β : Type} [DecidableEq κ] (key : β → κ)
    (l : List β) (k : κ) :
    ∀ d0 : List (κ × β), (∀ x ∈ l, key x ≠ k) →
      dictGet? (l.foldl (fun d x => dictInsert d (key x) x) d0) k = dictGet? d0 k := by
  induction l with
  | nil => intro d0 _; rfl
  | cons x xs ih =>
    intro d0 h
    rw [List.foldl_cons, ih _ (fun y hy => h y (List.mem_cons_of_mem _ hy)),
      dictGet?_insert, if_neg (fun hEq => h x (List.mem_cons_self _ _) hEq.symm)]

theorem dictGet?_foldl_mem {κ β : Type} [DecidableEq κ] (key : β → κ)
    (l : List β) (e : β) (hnodup : (l.map key).Nodup) (he : e ∈ l) :
    ∀ d0 : List (κ × β),
      dictGet? (l.foldl (fun d x => dictInsert d (key x) x) d0) (key e) = some e := by
  induction l with
  | nil => cases he
  | cons x xs ih =>
    intro d0
    rw [List.map_cons, List.nodup_cons] at hnodup
    rcases List.mem_cons.mp he with rfl | hmem
    · have hni : ∀ y ∈ xs, key y ≠ key e := by
        intro y hy hEq
        exact hnodup.1 (hEq ▸ List.mem_map_of_mem key hy)
      rw [List.foldl_cons, dictGet?_foldl_not_mem _ _ _ _ hni, dictGet?_insert]
      simp
    · rw [List.foldl_cons]
      exact ih hnodup.2 hmem _

/-! ## C1: full postcondition of get_updated_values -/

/-- C1: for every old entity list with pairwise-distinct identity-field
values, every record list and identity accessor, and every parser that reads
the new entity's identity from the record (which every entity parser in
models.py does, since parse copies the record's fields), get_updated_values
returns one element per input record in record order; element i is the
(unique) old entity with the record's identity value when one exists, with its
pending changes cleared, and otherwise the freshly parsed entity with cleared
pending changes; every returned element has empty pending changes; and an old
entity whose identity appears in no record is absent from the result (no
result element even carries its identity). -/
theorem get_updated_values_postcondition {κ δ ρ : Type} [DecidableEq κ]
    (old : List (RObj κ δ)) (new : List ρ) (parser : ρ → RObj κ δ) (recAttr : ρ → κ)
    (hnodup : (old.map RObj.ident).Nodup)
    (hparser : ∀ rec, (parser rec).ident = recAttr rec) :
    (get_updated_values old new parser recAttr).length = new.length ∧
    (∀ i : Nat, ∀ rec, new[i]? = some rec →
      (∀ e ∈ old, e.ident = recAttr rec →
        (get_updated_values old new parser recAttr)[i]? = some (clearChanges e)) ∧
      ((∀ e ∈ old, e.ident ≠ recAttr rec) →
        (get_updated_values old new parser recAttr)[i]? =
          some (clearChanges (parser rec)))) ∧
    (∀ x ∈ get_updated_values old new parser recAttr, x.commitChanges = []) ∧
    (∀ o ∈ old, o.ident ∉ new.map recAttr →
      (∀ x ∈ get_updated_values old new parser recAttr, x.ident ≠ o.ident) ∧
      o ∉ get_updated_values old new parser recAttr) := by
  have hident : ∀ p ∈ pyDictOf old, (RObj.ident p.2 : κ) = p.1 := by
    refine foldl_dictInsert_entry_prop RObj.ident old _ [] (by simp) (fun x _ => rfl)
  have hchosen_ident : ∀ item : ρ,
      (RObj.ident ((dictGet? (pyDictOf old) (recAttr item)).getD (parser item)) : κ) =
        recAttr item := by
    intro item
    cases hlk : dictGet? (pyDictOf old) (recAttr item) with
    | none => simp [hlk, hparser]
    | some v =>
      simp only [hlk, Option.getD_some]
      exact hident (recAttr item, v) (dictGet?_mem _ _ _ hlk)
  refine ⟨by simp [get_updated_values], ?_, ?_, ?_⟩
  · intro i rec hrec
    constructor
    · intro e he hid
      have hlk : dictGet? (pyDictOf old) (recAttr rec) = some e := by
        rw [← hid]
        exact dictGet?_foldl_mem RObj.ident old e hnodup he []
      simp [get_updated_values, List.getElem?_map, hrec, hlk]
    · intro hnone
      have hlk : dictGet? (pyDictOf old) (recAttr rec) = none := by
        have := dictGet?_foldl_not_mem RObj.ident old (recAttr rec) []
          (fun y hy => hnone y hy)
        simpa [pyDictOf, dictGet?] using this
      simp [get_updated_values, List.getElem?_map, hrec, hlk]
  · intro x hx
    simp only [get_updated_values, List.mem_map] at hx
    obtain ⟨item, _, hEq⟩ := hx
    rw [← hEq]
    rfl
  · intro o ho hnotin
    have hmain : ∀ x ∈ get_updated_values old new parser recAttr, x.ident ≠ o.ident := by
      intro x hx
      simp only [get_updated_values, List.mem_map] at hx
      obtain ⟨item, hitem, hEq⟩ := hx
      have hxid : (RObj.ident x : κ) = recAttr item := by
        rw [← hEq]
        exact hchosen_ident item
      intro hcontra
      apply hnotin
      rw [← hcontra, hxid]
      exact List.mem_map_of_mem recAttr hitem
    refine ⟨hmain, fun hmem => hmain o hmem rfl⟩

/-- Witness for get_updated_values_postcondition: old entities with identities
1 and 2 (entity 1 dirty), records [2, 3]; the result reuses entity 2 (cleared)
at index 0, parses a fresh entity for record 3 at index 1, and entity 1 is
dropped. -/
theorem get_updated_values_postcondition_witness :
    (([⟨1, (), [("a", JVal.int 0)]⟩, ⟨2, (), []⟩] :
        List (RObj Nat Unit)).map RObj.ident).Nodup ∧
    (∀ rec : Nat, ((fun n => (⟨n, (), [("fresh", JVal.int 1)]⟩ : RObj Nat Unit)) rec).ident =
      (fun n : Nat => n) rec) ∧
    (get_updated_values [⟨1, (), [("a", JVal.int 0)]⟩, ⟨2, (), []⟩]
        [2, 3] (fun n => ⟨n, (), [("fresh", JVal.int 1)]⟩) (fun n : Nat => n)).length = 2 ∧
    (get_updated_values [⟨1, (), [("a", JVal.int 0)]⟩, ⟨2, (), []⟩]
        [2, 3] (fun n => ⟨n, (), [("fresh", JVal.int 1)]⟩) (fun n : Nat => n))[0]? =
      some ⟨2, (), []⟩ ∧
    (get_updated_values [⟨1, (), [("a", JVal.int 0)]⟩, ⟨2, (), []⟩]
        [2, 3] (fun n => ⟨n, (), [("fresh", JVal.int 1)]⟩) (fun n : Nat => n))[1]? =
      some ⟨3, (), []⟩ ∧
    (∀ x ∈ get_updated_values [⟨1, (), [("a", JVal.int 0)]⟩, ⟨2, (), []⟩]
        [2, 3] (fun n => ⟨n, (), [("fresh", JVal.int 1)]⟩) (fun n : Nat => n),
      x.ident ≠ 1) := by
  have h := get_updated_values_postcondition
    [⟨1, (), [("a", JVal.int 0)]⟩, ⟨2, (), []⟩] [2, 3]
    (fun n => ⟨n, (), [("fresh", JVal.int 1)]⟩) (fun n : Nat => n)
    (by decide) (fun _ => rfl)
  refine ⟨by decide, fun _ => rfl, h.1, ?_, ?_, ?_⟩
  · exact (h.2.1 0 2 rfl).1 ⟨2, (), []⟩ (by simp) rfl
  · exact (h.2.1 1 3 rfl).2 (by decide)
  · have := (h.2.2.2 ⟨1, (), [("a", JVal.int 0)]⟩ (by simp) (by decide)).1
    simpa using this

/-! ## C9: the parser is applied to every record -/

/-- C9: get_updated_values applies the parser to every element of the
new-record list, including records whose identity matches an existing entity
(the freshly parsed instance is then discarded in favor of the reused one);
consequently, if parsing any single record raises, the whole reconciliation
raises - even when every record's identity matches an existing entity. -/
theorem get_updated_valuesE_parser_error_propagates {κ δ ρ : Type} [DecidableEq κ]
    (old : List (RObj κ δ)) (new : List ρ) (parser : ρ → Except String (RObj κ δ))
    (recAttr : ρ → κ) (rec : ρ) (msg : String) (hmem : rec ∈ new)
    (herr : parser rec = Except.error msg) :
    isOkB (get_updated_valuesE old new parser recAttr) = false := by
  unfold get_updated_valuesE
  induction new with
  | nil => cases hmem
  | cons item rest ih =>
    rcases List.mem_cons.mp hmem with rfl | hmem'
    · simp [get_updated_valuesE_go, herr, isOkB, Bind.bind, Except.bind]
    · cases hp : parser item with
      | error e => simp [get_updated_valuesE_go, hp, isOkB, Bind.bind, Except.bind]
      | ok v =>
        have := ih hmem'
        cases hrest : get_updated_valuesE_go (pyDictOf old) parser recAttr rest with
        | error e =>
          simp [get_updated_valuesE_go, hp, hrest, isOkB, Bind.bind, Except.bind,
            Functor.map, Except.map]
        | ok vs =>
          rw [hrest] at this
          simp [isOkB] at this

/-- Witness for get_updated_valuesE_parser_error_propagates: every record's
identity (1) matches the single existing entity, yet the failing parser makes
the whole reconciliation fail. -/
theorem get_updated_valuesE_parser_error_propagates_witness :
    (1 : Nat) ∈ [1] ∧
    ((fun _ : Nat => (Except.error "boom" : Except String (RObj Nat Unit))) 1 =
      Except.error "boom") ∧
    isOkB (get_updated_valuesE [⟨1, (), []⟩] [1]
      (fun _ : Nat => (Except.error "boom" : Except String (RObj Nat Unit)))
      (fun n : Nat => n)) = false :=
  ⟨by decide, rfl,
    get_updated_valuesE_parser_error_propagates [⟨1, (), []⟩] [1] _ _ 1 "boom"
      (by decide) rfl⟩

/-! ## Store-evolution lemmas for the save commit path -/

theorem sdict_out_of_range (st : SStore) (i : Nat) (hi : st.dicts.length ≤ i) :
    st.dict i = [] := by
  unfold SStore.dict
  rw [List.getD_eq_getElem?_getD, List.getElem?_eq_none_iff.mpr hi]
  rfl

theorem sext_clean {st st' : SStore} {r : Nat} (hc : CleanS st r) (h : SExt st st') :
    CleanS st' r := by
  obtain ⟨hr, hd⟩ := hc
  refine ⟨Nat.lt_of_lt_of_le hr h.savesLen, ?_⟩
  rcases h.saveOld r hr with hsame | hclean
  · rw [hsame]
    rcases Nat.lt_or_ge (st.save r).ccRef st.dicts.length with hlt | hge
    · rw [h.dictOld _ hlt]
      exact hd
    · exact h.dictNew _ hge
  · exact hclean.2

theorem sext_refl (st : SStore) : SExt st st where
  savesLen := Nat.le_refl _
  dictsLen := Nat.le_refl _
  dictOld := fun _ _ => rfl
  dictNew := fun i hi => sdict_out_of_range st i hi
  saveOld := fun _ _ => Or.inl rfl

theorem sext_trans {st1 st2 st3 : SStore} (h12 : SExt st1 st2) (h23 : SExt st2 st3) :
    SExt st1 st3 where
  savesLen := Nat.le_trans h12.savesLen h23.savesLen
  dictsLen := Nat.le_trans h12.dictsLen h23.dictsLen
  dictOld := fun i hi => by
    rw [h23.dictOld i (Nat.lt_of_lt_of_le hi h12.dictsLen), h12.dictOld i hi]
  dictNew := fun i hi => by
    rcases Nat.lt_or_ge i st2.dicts.length with hlt | hge
    · rw [h23.dictOld i hlt]
      exact h12.dictNew i hi
    · exact h23.dictNew i hge
  saveOld := fun r hr => by
    rcases h12.saveOld r hr with hsame | hclean
    · rcases h23.saveOld r (Nat.lt_of_lt_of_le hr h12.savesLen) with hsame' | hclean'
      · exact Or.inl (hsame'.trans hsame)
      · exact Or.inr hclean'
    · exact Or.inr (sext_clean hclean h23)

theorem sext_allocDict (st : SStore) : SExt st (st.allocDict []).1 where
  savesLen := Nat.le_refl _
  dictsLen := by
    unfold SStore.allocDict
    simp
  dictOld := fun i hi => dict_allocDict_lt st [] i hi
  dictNew := fun i hi => dict_allocDict_ge st i hi
  saveOld := fun _ _ => Or.inl rfl

theorem sext_allocSave (st : SStore) (o : SaveObj) : SExt st (st.allocSave o).1 where
  savesLen := by
    unfold SStore.allocSave
    simp
  dictsLen := Nat.le_refl _
  dictOld := fun _ _ => rfl
  dictNew := fun i hi => sdict_out_of_range st i hi
  saveOld := fun r hr => Or.inl (save_allocSave_lt st o r hr)

theorem sext_setCCRef (st : SStore) (r j : Nat) (hj : st.dict j = []) :
    SExt st (st.setCCRef r j) where
  savesLen := Nat.le_of_eq (saves_length_updateSave st r _).symm
  dictsLen := Nat.le_refl _
  dictOld := fun _ _ => rfl
  dictNew := fun i hi => sdict_out_of_range st i hi
  saveOld := fun r' hr' => by
    by_cases hrr : r' = r
    · subst hrr
      refine Or.inr ⟨by rw [SStore.setCCRef, saves_length_updateSave]; exact hr', ?_⟩
      rw [SStore.setCCRef, save_updateSave_self _ _ _ hr', dict_updateSave]
      exact hj
    · exact Or.inl (save_updateSave_ne _ _ _ _ hrr)

theorem clean_setCCRef (st : SStore) (r j : Nat) (hr : r < st.saves.length)
    (hj : st.dict j = []) : CleanS (st.setCCRef r j) r := by
  refine ⟨by rw [SStore.setCCRef, saves_length_updateSave]; exact hr, ?_⟩
  rw [SStore.setCCRef, save_updateSave_self _ _ _ hr, dict_updateSave]
  exact hj

theorem sext_setCallback (st : SStore) (r : Nat) (cb : Callback) (h : CleanS st r) :
    SExt st (st.setCallback r cb) where
  savesLen := Nat.le_of_eq (saves_length_updateSave st r _).symm
  dictsLen := Nat.le_refl _
  dictOld := fun _ _ => rfl
  dictNew := fun i hi => sdict_out_of_range st i hi
  saveOld := fun r' hr' => by
    by_cases hrr : r' = r
    · subst hrr
      refine Or.inr ⟨by rw [SStore.setCallback, saves_length_updateSave]; exact hr', ?_⟩
      rw [SStore.setCallback, save_updateSave_self _ _ _ hr', dict_updateSave]
      exact h.2
    · exact Or.inl (save_updateSave_ne _ _ _ _ hrr)

theorem sext_fold_setCallback (cb : Callback) :
    ∀ (refs : List Nat) (st : SStore), (∀ r ∈ refs, CleanS st r) →
      SExt st (refs.foldl (fun s r => s.setCallback r cb) st) := by
  intro refs
  induction refs with
  | nil => intro st _; exact sext_refl st
  | cons x xs ih =>
    intro st h
    rw [List.foldl_cons]
    have h1 := sext_setCallback st x cb (h x (List.mem_cons_self _ _))
    exact sext_trans h1 (ih _ (fun r hr => sext_clean (h r (List.mem_cons_of_mem _ hr)) h1))

mutual

theorem saveParse_sext (st : SStore) (rec : SaveRec) :
    SExt st (saveParse st rec).1 ∧ CleanS (saveParse st rec).1 (saveParse st rec).2 := by
  cases rec with
  | mk sid sname cname apath subs =>
    have hlist := saveParseList_sext st subs
    have e2 := sext_allocDict (saveParseList st subs).1
    have e3 := sext_allocSave ((saveParseList st subs).1.allocDict []).1
      { scenario_id := sid, scenario_name := sname, category_name := cname,
        absolute_path := apath, sub_saves := (saveParseList st subs).2,
        ccRef := ((saveParseList st subs).1.allocDict []).2,
        callback := Callback.defaultRaise }
    have hnewclean :
        CleanS (((saveParseList st subs).1.allocDict []).1.allocSave
          { scenario_id := sid, scenario_name := sname, category_name := cname,
            absolute_path := apath, sub_saves := (saveParseList st subs).2,
            ccRef := ((saveParseList st subs).1.allocDict []).2,
            callback := Callback.defaultRaise }).1
          (((saveParseList st subs).1.allocDict []).1.allocSave
            { scenario_id := sid, scenario_name := sname, category_name := cname,
              absolute_path := apath, sub_saves := (saveParseList st subs).2,
              ccRef := ((saveParseList st subs).1.allocDict []).2,
              callback := Callback.defaultRaise }).2 := by
      constructor
      · unfold SStore.allocSave
        simp
      · rw [save_allocSave_new, dict_allocSave, dict_allocDict_new]
    have hsubsclean : ∀ r ∈ (saveParseList st subs).2,
        CleanS (((saveParseList st subs).1.allocDict []).1.allocSave
          { scenario_id := sid, scenario_name := sname, category_name := cname,
            absolute_path := apath, sub_saves := (saveParseList st subs).2,
            ccRef := ((saveParseList st subs).1.allocDict []).2,
            callback := Callback.defaultRaise }).1 r := by
      intro r hr
      exact sext_clean (sext_clean (hlist.2 r hr) e2) e3
    have e4 := sext_fold_setCallback
      (Callback.parentCommit (((saveParseList st subs).1.allocDict []).1.allocSave
        { scenario_id := sid, scenario_name := sname, category_name := cname,
          absolute_path := apath, sub_saves := (saveParseList st subs).2,
          ccRef := ((saveParseList st subs).1.allocDict []).2,
          callback := Callback.defaultRaise }).2)
      (saveParseList st subs).2 _ hsubsclean
    exact ⟨sext_trans (sext_trans (sext_trans hlist.1 e2) e3) e4,
      sext_clean hnewclean e4⟩

theorem saveParseList_sext (st : SStore) (recs : List SaveRec) :
    SExt st (saveParseList st recs).1 ∧
      ∀ r ∈ (saveParseList st recs).2, CleanS (saveParseList st recs).1 r := by
  cases recs with
  | nil => exact ⟨sext_refl st, by simp [saveParseList]⟩
  | cons rec recs' =>
    have h1 := saveParse_sext st rec
    have h2 := saveParseList_sext (saveParse st rec).1 recs'
    refine ⟨sext_trans h1.1 h2.1, ?_⟩
    intro r hr
    have hmem : (saveParseList st (rec :: recs')).2 =
        (saveParse st rec).2 :: (saveParseList (saveParse st rec).1 recs').2 := rfl
    rw [hmem] at hr
    rcases List.mem_cons.mp hr with rfl | hr'
    · exact sext_clean h1.2 h2.1
    · exact h2.2 r hr'

end

theorem hGetUpdatedSaves_sext (st : SStore) (oldRefs : List Nat) (recs : List SaveRec)
    (hold : ∀ r ∈ oldRefs, r < st.saves.length) :
    SExt st (hGetUpdatedSaves st oldRefs recs).1 ∧
      ∀ r ∈ (hGetUpdatedSaves st oldRefs recs).2,
        CleanS (hGetUpdatedSaves st oldRefs recs).1 r := by
  have hdict : ∀ k v, dictGet?
      (oldRefs.foldl (fun d r => dictInsert d (st.save r).absolute_path r) []) k = some v →
      v < st.saves.length := by
    intro k v hv
    have hmem := dictGet?_mem _ _ _ hv
    exact foldl_dictInsert_entry_prop (fun r => (st.save r).absolute_path) oldRefs
      (fun p => p.2 < st.saves.length) [] (by simp) (fun x hx => hold x hx) _ hmem
  suffices h : ∀ (rs : List SaveRec) (acc : SStore × List Nat),
      SExt st acc.1 → (∀ r ∈ acc.2, CleanS acc.1 r) →
      SExt st (rs.foldl (fun (acc : SStore × List Nat) rec =>
        let p1 := saveParse acc.1 rec
        let chosen := (dictGet?
          (oldRefs.foldl (fun d r => dictInsert d (st.save r).absolute_path r) [])
          rec.absolutePath).getD p1.2
        let p2 := p1.1.allocDict []
        (p2.1.setCCRef chosen p2.2, acc.2 ++ [chosen])) acc).1 ∧
      ∀ r ∈ (rs.foldl (fun (acc : SStore × List Nat) rec =>
        let p1 := saveParse acc.1 rec
        let chosen := (dictGet?
          (oldRefs.foldl (fun d r => dictInsert d (st.save r).absolute_path r) [])
          rec.absolutePath).getD p1.2
        let p2 := p1.1.allocDict []
        (p2.1.setCCRef chosen p2.2, acc.2 ++ [chosen])) acc).2,
        CleanS (rs.foldl (fun (acc : SStore × List Nat) rec =>
          let p1 := saveParse acc.1 rec
          let chosen := (dictGet?
            (oldRefs.foldl (fun d r => dictInsert d (st.save r).absolute_path r) [])
            rec.absolutePath).getD p1.2
          let p2 := p1.1.allocDict []
          (p2.1.setCCRef chosen p2.2, acc.2 ++ [chosen])) acc).1 r by
    exact h recs (st, []) (sext_refl st) (by simp)
  intro rs
  induction rs with
  | nil => intro acc h1 h2; exact ⟨h1, h2⟩
  | cons rec rs' ih =>
    intro acc h1 h2
    rw [List.foldl_cons]
    have hparse := saveParse_sext acc.1 rec
    have e2 := sext_allocDict (saveParse acc.1 rec).1
    have hfresh : ((saveParse acc.1 rec).1.allocDict []).1.dict
        ((saveParse acc.1 rec).1.allocDict []).2 = [] := dict_allocDict_new _ []
    have hchosen_lt : ((dictGet?
        (oldRefs.foldl (fun d r => dictInsert d (st.save r).absolute_path r) [])
        rec.absolutePath).getD (saveParse acc.1 rec).2) <
        ((saveParse acc.1 rec).1.allocDict []).1.saves.length := by
      cases hlk : dictGet?
          (oldRefs.foldl (fun d r => dictInsert d (st.save r).absolute_path r) [])
          rec.absolutePath with
      | none =>
        simp only [hlk, Option.getD_none]
        exact Nat.lt_of_lt_of_le hparse.2.1 e2.savesLen
      | some v =>
        simp only [hlk, Option.getD_some]
        have hv := hdict _ _ hlk
        exact Nat.lt_of_lt_of_le hv
          (Nat.le_trans h1.savesLen (Nat.le_trans hparse.1.savesLen e2.savesLen))
    have e3 := sext_setCCRef ((saveParse acc.1 rec).1.allocDict []).1
      ((dictGet?
        (oldRefs.foldl (fun d r => dictInsert d (st.save r).absolute_path r) [])
        rec.absolutePath).getD (saveParse acc.1 rec).2)
      ((saveParse acc.1 rec).1.allocDict []).2 hfresh
    have hchosen_clean := clean_setCCRef ((saveParse acc.1 rec).1.allocDict []).1
      ((dictGet?
        (oldRefs.foldl (fun d r => dictInsert d (st.save r).absolute_path r) [])
        rec.absolutePath).getD (saveParse acc.1 rec).2)
      ((saveParse acc.1 rec).1.allocDict []).2 hchosen_lt hfresh
    have hstep : SExt acc.1 ((((saveParse acc.1 rec).1.allocDict []).1.setCCRef
        ((dictGet?
          (oldRefs.foldl (fun d r => dictInsert d (st.save r).absolute_path r) [])
          rec.absolutePath).getD (saveParse acc.1 rec).2)
        ((saveParse acc.1 rec).1.allocDict []).2)) :=
      sext_trans (sext_trans hparse.1 e2) e3
    refine ih _ (sext_trans h1 hstep) ?_
    intro r hr
    rcases List.mem_append.mp hr with hr' | hr'
    · exact sext_clean (h2 r hr') hstep
    · rw [List.mem_singleton.mp hr']
      exact hchosen_clean

theorem update_saves_sext (w : SaveWorld)
    (hwf : ∀ r ∈ w.saveFiles, r < w.store.saves.length) :
    SExt w.store (update_saves w).store ∧
      ∀ r ∈ (update_saves w).saveFiles, CleanS (update_saves w).store r := by
  have h := hGetUpdatedSaves_sext w.store w.saveFiles w.serverSaves hwf
  have e := sext_fold_setCallback Callback.sessionCommitSave
    (hGetUpdatedSaves w.store w.saveFiles w.serverSaves).2
    (hGetUpdatedSaves w.store w.saveFiles w.serverSaves).1 h.2
  refine ⟨sext_trans h.1 e, ?_⟩
  intro r hr
  exact sext_clean (h.2 r hr) e

theorem commitSaveStep_ok (w : SaveWorld) (committed : Bool) (r : Nat)
    (w' : SaveWorld) (c' : Bool)
    (hr : r < w.store.saves.length)
    (hwf : ∀ q ∈ w.saveFiles, q < w.store.saves.length)
    (h : commitSaveStep w committed r = Except.ok (w', c')) :
    SExt w.store w'.store ∧ CleanS w'.store r ∧
    (∀ q ∈ w'.saveFiles, q < w'.store.saves.length) ∧
    ((∀ q ∈ w.saveFiles, CleanS w.store q) → ∀ q ∈ w'.saveFiles, CleanS w'.store q) ∧
    (w'.saveFiles = w.saveFiles ∨ ∀ q ∈ w'.saveFiles, CleanS w'.store q) := by
  simp only [commitSaveStep] at h
  split at h
  · -- dirty save, nothing committed yet: PUT, check, re-fetch, clear
    split at h
    · cases h
    · injection h with h
      injection h with h1 h2
      subst h1
      subst h2
      set w1 : SaveWorld :=
        { w with puts := w.puts ++ [w.store.dict (w.store.save r).ccRef] } with hw1
      have hwf1 : ∀ q ∈ (update_active w1).saveFiles,
          q < (update_active w1).store.saves.length := hwf
      have hus := update_saves_sext (update_active w1) hwf1
      have e2 := sext_allocDict (update_saves (update_active w1)).store
      have hfresh : ((update_saves (update_active w1)).store.allocDict []).1.dict
          ((update_saves (update_active w1)).store.allocDict []).2 = [] :=
        dict_allocDict_new _ []
      have hr2 : r < ((update_saves (update_active w1)).store.allocDict []).1.saves.length :=
        Nat.lt_of_lt_of_le hr (Nat.le_trans hus.1.savesLen e2.savesLen)
      have e3 := sext_setCCRef ((update_saves (update_active w1)).store.allocDict []).1 r
        ((update_saves (update_active w1)).store.allocDict []).2 hfresh
      have hext : SExt w.store ((((update_saves (update_active w1)).store.allocDict
          []).1.setCCRef r ((update_saves (update_active w1)).store.allocDict []).2)) :=
        sext_trans (sext_trans hus.1 e2) e3
      have hcleanlist : ∀ q ∈ (update_saves (update_active w1)).saveFiles,
          CleanS ((((update_saves (update_active w1)).store.allocDict
            []).1.setCCRef r ((update_saves (update_active w1)).store.allocDict []).2)) q := by
        intro q hq
        exact sext_clean (hus.2 q hq) (sext_trans e2 e3)
      refine ⟨hext, clean_setCCRef _ _ _ hr2 hfresh, ?_, ?_, Or.inr hcleanlist⟩
      · intro q hq
        exact (hcleanlist q hq).1
      · intro _ q hq
        exact hcleanlist q hq
  · -- clean save (or already committed): just rebind to a fresh empty dict
    injection h with h
    injection h with h1 h2
    subst h1
    subst h2
    have e2 := sext_allocDict w.store
    have hfresh : (w.store.allocDict []).1.dict (w.store.allocDict []).2 = [] :=
      dict_allocDict_new _ []
    have hr2 : r < (w.store.allocDict []).1.saves.length := hr
    have e3 := sext_setCCRef (w.store.allocDict []).1 r (w.store.allocDict []).2 hfresh
    have hext : SExt w.store ((w.store.allocDict []).1.setCCRef r
        (w.store.allocDict []).2) := sext_trans e2 e3
    refine ⟨hext, clean_setCCRef _ _ _ hr2 hfresh, ?_, ?_, Or.inl rfl⟩
    · intro q hq
      exact Nat.lt_of_lt_of_le (hwf q hq) hext.savesLen
    · intro hall q hq
      exact sext_clean (hall q hq) hext

theorem commitSave_loop_clean (w0 : SaveWorld) :
    ∀ (refs : List Nat) (w : SaveWorld) (committed : Bool) (out : SaveWorld × Bool),
      refs.foldlM (fun (acc : SaveWorld × Bool) q => commitSaveStep acc.1 acc.2 q)
        (w, committed) = Except.ok out →
      (∀ q ∈ refs, q < w0.store.saves.length) →
      SExt w0.store w.store →
      (∀ q ∈ w.saveFiles, q < w.store.saves.length) →
      (w.saveFiles = w0.saveFiles ∨ ∀ q ∈ w.saveFiles, CleanS w.store q) →
      SExt w.store out.1.store ∧
      (∀ q ∈ refs, CleanS out.1.store q) ∧
      (∀ q ∈ out.1.saveFiles, q < out.1.store.saves.length) ∧
      (out.1.saveFiles = w0.saveFiles ∨ ∀ q ∈ out.1.saveFiles, CleanS out.1.store q) := by
  intro refs
  induction refs with
  | nil =>
    intro w committed out h _ _ hwf hdisj
    simp only [List.foldlM] at h
    injection h with h
    subst h
    exact ⟨sext_refl _, by simp, hwf, hdisj⟩
  | cons q qs ih =>
    intro w committed out h hrange hext0 hwf hdisj
    rw [List.foldlM_cons] at h
    cases hstep : commitSaveStep w committed q with
    | error e =>
      rw [hstep] at h
      cases h
    | ok acc1 =>
      rw [hstep] at h
      obtain ⟨w1, c1⟩ := acc1
      have hq : q < w.store.saves.length :=
        Nat.lt_of_lt_of_le (hrange q (List.mem_cons_self _ _)) hext0.savesLen
      have hs := commitSaveStep_ok w committed q w1 c1 hq hwf hstep
      have hih := ih w1 c1 out h
        (fun p hp => hrange p (List.mem_cons_of_mem _ hp))
        (sext_trans hext0 hs.1) hs.2.2.1 ?_
      · refine ⟨sext_trans hs.1 hih.1, ?_, hih.2.2.1, hih.2.2.2⟩
        intro p hp
        rcases List.mem_cons.mp hp with rfl | hp'
        · exact sext_clean hs.2.1 hih.1
        · exact hih.2.1 p hp'
      · rcases hs.2.2.2.2 with hsame | hclean
        · rw [hsame]
          rcases hdisj with h0 | hcl
          · exact Or.inl h0
          · refine Or.inr ?_
            intro p hp
            have hthis := hs.2.2.2.1 hcl p
            rw [hsame] at hthis
            exact hthis hp
        · exact Or.inr hclean

/-- Every save in the list _commit_save iterates, and every save in the
session's (possibly re-fetched) save list, has an empty pending-changes dict
once _commit_save returns successfully with force or autocommit set. -/
theorem commitSave_ok_clean (w w' : SaveWorld) (force : Bool)
    (hguard : (force || w.autocommit) = true)
    (hwf : ∀ r ∈ w.saveFiles, r < w.store.saves.length)
    (h : commitSave w force = Except.ok w') :
    (∀ r ∈ w.saveFiles, CleanS w'.store r) ∧
    (∀ r ∈ w'.saveFiles, CleanS w'.store r) := by
  unfold commitSave at h
  rw [hguard] at h
  simp only [Bool.not_true, Bool.false_eq_true, if_false] at h
  cases hout : (w.saveFiles.foldlM
      (fun (acc : SaveWorld × Bool) r => commitSaveStep acc.1 acc.2 r)
      (w, false)) with
  | error e =>
    rw [hout] at h
    cases h
  | ok out =>
    rw [hout] at h
    simp only [Except.map] at h
    injection h with h
    subst h
    have hloop := commitSave_loop_clean w w.saveFiles w false out hout hwf
      (sext_refl _) hwf (Or.inl rfl)
    refine ⟨hloop.2.1, ?_⟩
    rcases hloop.2.2.2 with hsame | hclean
    · rw [hsame]
      exact hloop.2.1
    · exact hclean

/-! ## Store-evolution lemmas for the actor commit path -/

theorem adict_out_of_range (st : AStore) (i : Nat) (hi : st.dicts.length ≤ i) :
    st.dict i = [] := by
  unfold AStore.dict
  rw [List.getD_eq_getElem?_getD, List.getElem?_eq_none_iff.mpr hi]
  rfl

theorem aext_clean {st st' : AStore} {r : Nat} (hc : CleanA st r) (h : AExt st st') :
    CleanA st' r := by
  obtain ⟨hr, hd⟩ := hc
  refine ⟨Nat.lt_of_lt_of_le hr h.actorsLen, ?_⟩
  rcases h.actorOld r hr with hsame | hclean
  · rw [hsame]
    rcases Nat.lt_or_ge (st.actor r).ccRef st.dicts.length with hlt | hge
    · rw [h.dictOld _ hlt]
      exact hd
    · exact h.dictNew _ hge
  · exact hclean.2

theorem aext_refl (st : AStore) : AExt st st where
  actorsLen := Nat.le_refl _
  dictsLen := Nat.le_refl _
  dictOld := fun _ _ => rfl
  dictNew := fun i hi => adict_out_of_range st i hi
  actorOld := fun _ _ => Or.inl rfl

theorem aext_trans {st1 st2 st3 : AStore} (h12 : AExt st1 st2) (h23 : AExt st2 st3) :
    AExt st1 st3 where
  actorsLen := Nat.le_trans h12.actorsLen h23.actorsLen
  dictsLen := Nat.le_trans h12.dictsLen h23.dictsLen
  dictOld := fun i hi => by
    rw [h23.dictOld i (Nat.lt_of_lt_of_le hi h12.dictsLen), h12.dictOld i hi]
  dictNew := fun i hi => by
    rcases Nat.lt_or_ge i st2.dicts.length with hlt | hge
    · rw [h23.dictOld i hlt]
      exact h12.dictNew i hi
    · exact h23.dictNew i hge
  actorOld := fun r hr => by
    rcases h12.actorOld r hr with hsame | hclean
    · rcases h23.actorOld r (Nat.lt_of_lt_of_le hr h12.actorsLen) with hsame' | hclean'
      · exact Or.inl (hsame'.trans hsame)
      · exact Or.inr hclean'
    · exact Or.inr (aext_clean hclean h23)

theorem aext_allocDict (st : AStore) : AExt st (st.allocDict []).1 where
  actorsLen := Nat.le_refl _
  dictsLen := by
    unfold AStore.allocDict
    simp
  dictOld := fun i hi => adict_allocDict_lt st [] i hi
  dictNew := fun i hi => adict_allocDict_ge st i hi
  actorOld := fun _ _ => Or.inl rfl

theorem aext_allocActor (st : AStore) (o : ActorObj) : AExt st (st.allocActor o).1 where
  actorsLen := by
    unfold AStore.allocActor
    simp
  dictsLen := Nat.le_refl _
  dictOld := fun _ _ => rfl
  dictNew := fun i hi => adict_out_of_range st i hi
  actorOld := fun r hr => Or.inl (actor_allocActor_lt st o r hr)

theorem aext_setACCRef (st : AStore) (r j : Nat) (hj : st.dict j = []) :
    AExt st (st.setACCRef r j) where
  actorsLen := Nat.le_of_eq (actors_length_updateActor st r _).symm
  dictsLen := Nat.le_refl _
  dictOld := fun _ _ => rfl
  dictNew := fun i hi => adict_out_of_range st i hi
  actorOld := fun r' hr' => by
    by_cases hrr : r' = r
    · subst hrr
      refine Or.inr ⟨by rw [AStore.setACCRef, actors_length_updateActor]; exact hr', ?_⟩
      rw [AStore.setACCRef, actor_updateActor_self _ _ _ hr', adict_updateActor]
      exact hj
    · exact Or.inl (actor_updateActor_ne _ _ _ _ hrr)

theorem clean_setACCRef (st : AStore) (r j : Nat) (hr : r < st.actors.length)
    (hj : st.dict j = []) : CleanA (st.setACCRef r j) r := by
  refine ⟨by rw [AStore.setACCRef, actors_length_updateActor]; exact hr, ?_⟩
  rw [AStore.setACCRef, actor_updateActor_self _ _ _ hr, adict_updateActor]
  exact hj

theorem aext_setACallback (st : AStore) (r : Nat) (cb : ACallback) (h : CleanA st r) :
    AExt st (st.setACallback r cb) where
  actorsLen := Nat.le_of_eq (actors_length_updateActor st r _).symm
  dictsLen := Nat.le_refl _
  dictOld := fun _ _ => rfl
  dictNew := fun i hi => adict_out_of_range st i hi
  actorOld := fun r' hr' => by
    by_cases hrr : r' = r
    · subst hrr
      refine Or.inr ⟨by rw [AStore.setACallback, actors_length_updateActor]; exact hr', ?_⟩
      rw [AStore.setACallback, actor_updateActor_self _ _ _ hr', adict_updateActor]
      exact h.2
    · exact Or.inl (actor_updateActor_ne _ _ _ _ hrr)

theorem aext_fold_setACallback (cb : ACallback) :
    ∀ (refs : List Nat) (st : AStore), (∀ r ∈ refs, CleanA st r) →
      AExt st (refs.foldl (fun s r => s.setACallback r cb) st) := by
  intro refs
  induction refs with
  | nil => intro st _; exact aext_refl st
  | cons x xs ih =>
    intro st h
    rw [List.foldl_cons]
    have h1 := aext_setACallback st x cb (h x (List.mem_cons_self _ _))
    exact aext_trans h1 (ih _ (fun r hr => aext_clean (h r (List.mem_cons_of_mem _ hr)) h1))

theorem childParseList_aext (st : AStore) (recs : List ChildRec) :
    AExt st (childParseList st recs).1 := by
  unfold childParseList
  suffices h : ∀ (rs : List ChildRec) (acc : AStore × List ChildObj), AExt st acc.1 →
      AExt st (rs.foldl (fun (acc : AStore × List ChildObj) rec =>
        ((acc.1.allocDict []).1,
          acc.2 ++ [(⟨rec.name, (acc.1.allocDict []).2⟩ : ChildObj)])) acc).1 by
    exact h recs (st, []) (aext_refl st)
  intro rs
  induction rs with
  | nil => intro acc h; exact h
  | cons rec rs' ih =>
    intro acc h
    rw [List.foldl_cons]
    exact ih _ (aext_trans h (aext_allocDict acc.1))

theorem actorParse_aext (st : AStore) (rec : ActorRec) (out : AStore × Nat)
    (h : actorParse st rec = Except.ok out) :
    AExt st out.1 ∧ CleanA out.1 out.2 := by
  unfold actorParse at h
  split at h
  · cases h
  · injection h with h
    subst h
    have e1 := childParseList_aext st rec.properties
    have e2 := childParseList_aext (childParseList st rec.properties).1 rec.propertyEnums
    have e3 := childParseList_aext
      (childParseList (childParseList st rec.properties).1 rec.propertyEnums).1 rec.actions
    have e4 := aext_allocDict
      (childParseList (childParseList (childParseList st
        rec.properties).1 rec.propertyEnums).1 rec.actions).1
    have e5 := aext_allocActor
      ((childParseList (childParseList (childParseList st
        rec.properties).1 rec.propertyEnums).1 rec.actions).1.allocDict []).1
      (⟨rec.name, rec.id, rec.isVisible, rec.type,
        (childParseList st rec.properties).2, [],
        (childParseList (childParseList st rec.properties).1 rec.propertyEnums).2,
        (childParseList (childParseList (childParseList st
          rec.properties).1 rec.propertyEnums).1 rec.actions).2,
        ((childParseList (childParseList (childParseList st
          rec.properties).1 rec.propertyEnums).1 rec.actions).1.allocDict []).2,
        ACallback.defaultRaise⟩ : ActorObj)
    refine ⟨aext_trans (aext_trans (aext_trans (aext_trans e1 e2) e3) e4) e5, ?_, ?_⟩
    · unfold AStore.allocActor
      simp
    · rw [actor_allocActor_new, adict_allocActor, adict_allocDict_new]

theorem hGetUpdatedActors_sext (st : AStore) (oldRefs : List Nat) (recs : List ActorRec)
    (out : AStore × List Nat)
    (hold : ∀ r ∈ oldRefs, r < st.actors.length)
    (h : hGetUpdatedActors st oldRefs recs = Except.ok out) :
    AExt st out.1 ∧ ∀ r ∈ out.2, CleanA out.1 r := by
  have hdict : ∀ k v, dictGet?
      (oldRefs.foldl (fun d r => dictInsert d (st.actor r).id r) []) k = some v →
      v < st.actors.length := by
    intro k v hv
    have hmem := dictGet?_mem _ _ _ hv
    exact foldl_dictInsert_entry_prop (fun r => (st.actor r).id) oldRefs
      (fun p => p.2 < st.actors.length) [] (by simp) (fun x hx => hold x hx) _ hmem
  unfold hGetUpdatedActors at h
  suffices hgen : ∀ (rs : List ActorRec) (acc : AStore × List Nat) (res : AStore × List Nat),
      AExt st acc.1 → (∀ r ∈ acc.2, CleanA acc.1 r) →
      (rs.foldlM (fun (acc : AStore × List Nat) rec => do
        let p1 ← actorParse acc.1 rec
        let chosen := (dictGet?
          (oldRefs.foldl (fun d r => dictInsert d (st.actor r).id r) []) rec.id).getD p1.2
        let p2 := p1.1.allocDict []
        pure (p2.1.setACCRef chosen p2.2, acc.2 ++ [chosen])) acc) = Except.ok res →
      AExt st res.1 ∧ ∀ r ∈ res.2, CleanA res.1 r by
    exact hgen recs (st, []) out (aext_refl st) (by simp) h
  intro rs
  induction rs with
  | nil =>
    intro acc res h1 h2 hfold
    simp only [List.foldlM] at hfold
    injection hfold with hfold
    subst hfold
    exact ⟨h1, h2⟩
  | cons rec rs' ih =>
    intro acc res h1 h2 hfold
    rw [List.foldlM_cons] at hfold
    cases hparse : actorParse acc.1 rec with
    | error e =>
      rw [hparse] at hfold
      cases hfold
    | ok p1 =>
      rw [hparse] at hfold
      have hp := actorParse_aext acc.1 rec p1 hparse
      have e2 := aext_allocDict p1.1
      have hfresh : (p1.1.allocDict []).1.dict (p1.1.allocDict []).2 = [] :=
        adict_allocDict_new _ []
      have hchosen_lt : ((dictGet?
          (oldRefs.foldl (fun d r => dictInsert d (st.actor r).id r) []) rec.id).getD
          p1.2) < (p1.1.allocDict []).1.actors.length := by
        cases hlk : dictGet?
            (oldRefs.foldl (fun d r => dictInsert d (st.actor r).id r) []) rec.id with
        | none =>
          simp only [hlk, Option.getD_none]
          exact Nat.lt_of_lt_of_le hp.2.1 e2.actorsLen
        | some v =>
          simp only [hlk, Option.getD_some]
          exact Nat.lt_of_lt_of_le (hdict _ _ hlk)
            (Nat.le_trans h1.actorsLen (Nat.le_trans hp.1.actorsLen e2.actorsLen))
      have e3 := aext_setACCRef (p1.1.allocDict []).1
        ((dictGet? (oldRefs.foldl (fun d r => dictInsert d (st.actor r).id r) [])
          rec.id).getD p1.2) (p1.1.allocDict []).2 hfresh
      have hchosen_clean := clean_setACCRef (p1.1.allocDict []).1
        ((dictGet? (oldRefs.foldl (fun d r => dictInsert d (st.actor r).id r) [])
          rec.id).getD p1.2) (p1.1.allocDict []).2 hchosen_lt hfresh
      have hstep : AExt acc.1 ((p1.1.allocDict []).1.setACCRef
          ((dictGet? (oldRefs.foldl (fun d r => dictInsert d (st.actor r).id r) [])
            rec.id).getD p1.2) (p1.1.allocDict []).2) :=
        aext_trans (aext_trans hp.1 e2) e3
      refine ih _ res (aext_trans h1 hstep) ?_ hfold
      intro r hr
      rcases List.mem_append.mp hr with hr' | hr'
      · exact aext_clean (h2 r hr') hstep
      · rw [List.mem_singleton.mp hr']
        exact hchosen_clean

theorem update_operator_actors_sext (w w' : ActorWorld)
    (hwf : ∀ r ∈ w.operatorActors, r < w.store.actors.length)
    (h : update_operator_actors w = Except.ok w') :
    AExt w.store w'.store ∧
      (∀ r ∈ w'.operatorActors, CleanA w'.store r) ∧
      w'.puts = w.puts := by
  unfold update_operator_actors at h
  cases hget : hGetUpdatedActors w.store w.operatorActors w.serverActors with
  | error e =>
    rw [hget] at h
    cases h
  | ok p =>
    rw [hget] at h
    simp only [Except.bind, bind, pure, Except.pure] at h
    injection h with h
    subst h
    have hg := hGetUpdatedActors_sext w.store w.operatorActors w.serverActors p hwf hget
    have e := aext_fold_setACallback ACallback.session p.2 p.1 hg.2
    exact ⟨aext_trans hg.1 e, fun r hr => aext_clean (hg.2 r hr) e, rfl⟩

theorem commitActorStep_ok (w : ActorWorld) (r : Nat) (w' : ActorWorld)
    (hr : r < w.store.actors.length)
    (h : commitActorStep w r = Except.ok w') :
    AExt w.store w'.store ∧ CleanA w'.store r ∧
      w'.operatorActors = w.operatorActors ∧
      w'.serverActors = w.serverActors := by
  simp only [commitActorStep] at h
  split at h
  · -- dirty actor: PUT, check acknowledgement, rebind to a fresh empty dict
    rename_i hdirty
    split at h
    · cases h
    · injection h with h
      subst h
      have e2 := aext_allocDict w.store
      have hfresh : (w.store.allocDict []).1.dict (w.store.allocDict []).2 = [] :=
        adict_allocDict_new _ []
      have e3 := aext_setACCRef (w.store.allocDict []).1 r (w.store.allocDict []).2 hfresh
      exact ⟨aext_trans e2 e3, clean_setACCRef _ _ _ hr hfresh, rfl, rfl⟩
  · -- clean actor: untouched, and its dict is empty by the branch condition
    rename_i hclean
    injection h with h
    subst h
    refine ⟨aext_refl _, ⟨hr, ?_⟩, rfl, rfl⟩
    simp only [Bool.not_eq_true, Bool.not_eq_false] at hclean
    simpa using hclean

theorem commitActor_loop_clean (w0 : ActorWorld) :
    ∀ (refs : List Nat) (w : ActorWorld) (out : ActorWorld),
      refs.foldlM (fun acc q => commitActorStep acc q) w = Except.ok out →
      (∀ q ∈ refs, q < w0.store.actors.length) →
      AExt w0.store w.store →
      AExt w.store out.store ∧
      (∀ q ∈ refs, CleanA out.store q) ∧
      out.operatorActors = w.operatorActors ∧
      out.serverActors = w.serverActors := by
  intro refs
  induction refs with
  | nil =>
    intro w out h _ _
    simp only [List.foldlM] at h
    injection h with h
    subst h
    exact ⟨aext_refl _, by simp, rfl, rfl⟩
  | cons q qs ih =>
    intro w out h hrange hext0
    rw [List.foldlM_cons] at h
    cases hstep : commitActorStep w q with
    | error e =>
      rw [hstep] at h
      cases h
    | ok w1 =>
      rw [hstep] at h
      have hq : q < w.store.actors.length :=
        Nat.lt_of_lt_of_le (hrange q (List.mem_cons_self _ _)) hext0.actorsLen
      have hs := commitActorStep_ok w q w1 hq hstep
      have hih := ih w1 out h (fun p hp => hrange p (List.mem_cons_of_mem _ hp))
        (aext_trans hext0 hs.1)
      refine ⟨aext_trans hs.1 hih.1, ?_, hih.2.2.1.trans hs.2.2.1,
        hih.2.2.2.trans hs.2.2.2⟩
      intro p hp
      rcases List.mem_cons.mp hp with rfl | hp'
      · exact aext_clean hs.2.1 hih.1
      · exact hih.2.1 p hp'

/-- Every actor in the list _commit_operator_actors iterates, and every actor
in the re-fetched list, has an empty own pending-changes dict once
_commit_operator_actors returns successfully with force or autocommit set. -/
theorem commitOperatorActors_ok_clean (w w' : ActorWorld) (force : Bool)
    (hguard : (force || w.autocommit) = true)
    (hwf : ∀ r ∈ w.operatorActors, r < w.store.actors.length)
    (h : commitOperatorActors w force = Except.ok w') :
    (∀ r ∈ w.operatorActors, CleanA w'.store r) ∧
    (∀ r ∈ w'.operatorActors, CleanA w'.store r) := by
  unfold commitOperatorActors at h
  rw [hguard] at h
  simp only [Bool.not_true, Bool.false_eq_true, if_false] at h
  cases hloop : (w.operatorActors.foldlM (fun acc r => commitActorStep acc r) w) with
  | error e =>
    rw [hloop] at h
    simp only [Except.bind, bind] at h
    cases h
  | ok w1 =>
    rw [hloop] at h
    simp only [Except.bind, bind] at h
    have hl := commitActor_loop_clean w w.operatorActors w w1 hloop hwf (aext_refl _)
    have hwf1 : ∀ r ∈ w1.operatorActors, r < w1.store.actors.length := by
      intro r hr
      rw [hl.2.2.1] at hr
      exact Nat.lt_of_lt_of_le (hwf r hr) hl.1.actorsLen
    have hup := update_operator_actors_sext w1 w' hwf1 h
    constructor
    · intro r hr
      exact aext_clean (hl.2.1 r hr) hup.1
    · exact hup.2.1

/-! ## C2 amended: both commit paths clear the top-level objects they own -/

/-- C2 amended: after the save-commit path completes successfully (with force
or autocommit enabled), every top-level Save in the list the loop iterated AND
every Save in the session's (possibly re-fetched) list has an empty own
pending-changes dict; likewise after the operator-actor commit path, every
actor in the iterated list and in the re-fetched list has an empty own
pending-changes dict.  (Sub-saves' and child entities' dicts are not touched
by either path - see the counterexample.) -/
theorem commit_paths_clear_toplevel_pending
    (ws ws' : SaveWorld) (forceS : Bool) (wa wa' : ActorWorld) (forceA : Bool)
    (hgs : (forceS || ws.autocommit) = true)
    (hwfs : ∀ r ∈ ws.saveFiles, r < ws.store.saves.length)
    (heqs : commitSave ws forceS = Except.ok ws')
    (hga : (forceA || wa.autocommit) = true)
    (hwfa : ∀ r ∈ wa.operatorActors, r < wa.store.actors.length)
    (heqa : commitOperatorActors wa forceA = Except.ok wa') :
    (∀ r ∈ ws.saveFiles, CleanS ws'.store r) ∧
    (∀ r ∈ ws'.saveFiles, CleanS ws'.store r) ∧
    (∀ r ∈ wa.operatorActors, CleanA wa'.store r) ∧
    (∀ r ∈ wa'.operatorActors, CleanA wa'.store r) := by
  have hs := commitSave_ok_clean ws ws' forceS hgs hwfs heqs
  have ha := commitOperatorActors_ok_clean wa wa' forceA hga hwfa heqa
  exact ⟨hs.1, hs.2, ha.1, ha.2⟩

/-- Witness for commit_paths_clear_toplevel_pending at the concrete example
sessions. -/
theorem commit_paths_clear_toplevel_pending_witness :
    ∃ ws' wa', commitSave exSaveWorld true = Except.ok ws' ∧
      commitOperatorActors exActorWorld true = Except.ok wa' ∧
      (true || exSaveWorld.autocommit) = true ∧
      (∀ r ∈ exSaveWorld.saveFiles, r < exSaveWorld.store.saves.length) ∧
      (true || exActorWorld.autocommit) = true ∧
      (∀ r ∈ exActorWorld.operatorActors, r < exActorWorld.store.actors.length) ∧
      (∀ r ∈ exSaveWorld.saveFiles, CleanS ws'.store r) ∧
      (∀ r ∈ ws'.saveFiles, CleanS ws'.store r) ∧
      (∀ r ∈ exActorWorld.operatorActors, CleanA wa'.store r) ∧
      (∀ r ∈ wa'.operatorActors, CleanA wa'.store r) := by
  have h := commit_paths_clear_toplevel_pending exSaveWorld _ true exActorWorld _ true
    rfl (by decide) rfl rfl (by decide) rfl
  exact ⟨_, _, rfl, rfl, rfl, by decide, rfl, by decide,
    h.1, h.2.1, h.2.2.1, h.2.2.2⟩

/-! ## C8 amended: the is_visible commit payload -/

theorem isEmpty_false_of_ne_nil {α : Type} (l : List α) (h : l ≠ []) :
    l.isEmpty = false := by
  cases l with
  | nil => exact absurd rfl h
  | cons a l => rfl

theorem adict_setDict_self (st : AStore) (i : Nat) (d : CC) (hi : i < st.dicts.length) :
    (st.setDict i d).dict i = d := by
  unfold AStore.setDict AStore.dict
  simp only [List.getD_eq_getElem?_getD]
  rw [List.getElem?_set_self (by simpa using hi)]
  rfl

theorem adict_setDict_ne (st : AStore) (i j : Nat) (d : CC) (h : j ≠ i) :
    (st.setDict i d).dict j = st.dict j := by
  unfold AStore.setDict AStore.dict
  simp only [List.getD_eq_getElem?_getD]
  rw [List.getElem?_set_ne (fun hEq => h hEq.symm)]

theorem actor_setDict (st : AStore) (i : Nat) (d : CC) (r : Nat) :
    (st.setDict i d).actor r = st.actor r := rfl

theorem check_updates_clean (st : AStore) (items : List ChildObj)
    (h : ∀ c ∈ items, st.dict c.ccRef = []) : check_updates st items = [] := by
  unfold check_updates
  suffices hgen : ∀ (l : List ChildObj) (acc : List CC),
      (∀ c ∈ l, st.dict c.ccRef = []) →
      l.foldl (fun acc c =>
        if !(st.dict c.ccRef).isEmpty then acc ++ [st.dict c.ccRef] else acc) acc = acc by
    exact hgen items [] h
  intro l
  induction l with
  | nil => intro acc _; rfl
  | cons c cs ih =>
    intro acc hall
    rw [List.foldl_cons, if_neg (by rw [hall c (List.mem_cons_self _ _)]; simp)]
    exact ih acc (fun d hd => hall d (List.mem_cons_of_mem _ hd))

theorem actorParse_is_ok (st : AStore) (rec : ActorRec) (h : rec.propertyArrays = []) :
    ∃ out, actorParse st rec = Except.ok out := by
  unfold actorParse
  rw [if_neg (by rw [h]; simp)]
  exact ⟨_, rfl⟩

theorem hGetUpdatedActors_is_ok (st : AStore) (oldRefs : List Nat)
    (recs : List ActorRec) (h : ∀ rec ∈ recs, rec.propertyArrays = []) :
    ∃ out, hGetUpdatedActors st oldRefs recs = Except.ok out := by
  unfold hGetUpdatedActors
  suffices hgen : ∀ (rs : List ActorRec) (acc : AStore × List Nat),
      (∀ rec ∈ rs, rec.propertyArrays = []) →
      ∃ out, (rs.foldlM (fun (acc : AStore × List Nat) rec => do
        let p1 ← actorParse acc.1 rec
        let chosen := (dictGet?
          (oldRefs.foldl (fun d r => dictInsert d (st.actor r).id r) []) rec.id).getD p1.2
        let p2 := p1.1.allocDict []
        pure (p2.1.setACCRef chosen p2.2, acc.2 ++ [chosen])) acc) = Except.ok out by
    exact hgen recs (st, []) h
  intro rs
  induction rs with
  | nil => intro acc _; exact ⟨acc, rfl⟩
  | cons rec rs' ih =>
    intro acc hall
    rw [List.foldlM_cons]
    obtain ⟨p1, hp1⟩ := actorParse_is_ok acc.1 rec (hall rec (List.mem_cons_self _ _))
    rw [hp1]
    exact ih _ (fun q hq => hall q (List.mem_cons_of_mem _ hq))

theorem update_operator_actors_is_ok (w : ActorWorld)
    (hsrv : ∀ rec ∈ w.serverActors, rec.propertyArrays = []) :
    ∃ w', update_operator_actors w = Except.ok w' ∧ w'.puts = w.puts := by
  unfold update_operator_actors
  obtain ⟨out, hout⟩ := hGetUpdatedActors_is_ok w.store w.operatorActors w.serverActors hsrv
  rw [hout]
  exact ⟨_, rfl, rfl⟩

theorem actorCommit_clean_children (w : ActorWorld) (r : Nat) (force : Bool)
    (hcleanP : check_updates w.store (w.store.actor r).properties = [])
    (hcleanA : check_updates w.store (w.store.actor r).property_arrays = [])
    (hcleanE : check_updates w.store (w.store.actor r).property_enums = [])
    (hcleanAc : check_updates w.store (w.store.actor r).actions = [])
    (hdirty : w.store.dict ((w.store.actor r).ccRef) ≠ [])
    (hcb : (w.store.actor r).callback = ACallback.session) :
    actorCommit w r force = commitOperatorActors
      { w with store := (w.store.setDict ((w.store.actor r).ccRef)
          (dictInsert (w.store.dict ((w.store.actor r).ccRef)) "id"
            (JVal.int (w.store.actor r).id))) } force := by
  simp only [actorCommit]
  rw [hcleanP, hcleanA, hcleanE, hcleanAc]
  simp only [List.isEmpty_nil, Bool.not_true, Bool.false_eq_true, if_false]
  rw [if_pos (by rw [isEmpty_false_of_ne_nil _ hdirty]; rfl), hcb]

theorem commitOperatorActors_singleton (w : ActorWorld) (r : Nat)
    (hauto : w.autocommit = true)
    (hlist : w.operatorActors = [r])
    (hdirty : w.store.dict ((w.store.actor r).ccRef) ≠ [])
    (hresp : w.serverActorResp = goodActorResp)
    (hsrv : ∀ rec ∈ w.serverActors, rec.propertyArrays = []) :
    ∃ w', commitOperatorActors w false = Except.ok w' ∧
      w'.puts = w.puts ++ [w.store.dict ((w.store.actor r).ccRef)] := by
  unfold commitOperatorActors
  rw [hauto, hlist]
  simp only [Bool.or_true, Bool.not_true, Bool.false_eq_true, if_false]
  rw [List.foldlM_cons]
  obtain ⟨w1, hw1, hputs1, hsrv1⟩ : ∃ w1, commitActorStep w r = Except.ok w1 ∧
      w1.puts = w.puts ++ [w.store.dict ((w.store.actor r).ccRef)] ∧
      w1.serverActors = w.serverActors := by
    simp only [commitActorStep]
    rw [if_pos (by rw [isEmpty_false_of_ne_nil _ hdirty]; rfl),
      if_neg (fun hne => hne hresp)]
    exact ⟨_, rfl, rfl, rfl⟩
  rw [hw1]
  obtain ⟨w2, hw2, hputs2⟩ := update_operator_actors_is_ok w1
    (by rw [hsrv1]; exact hsrv)
  refine ⟨w2, ?_, by rw [hputs2, hputs1]⟩
  show (Except.ok w1 >>= fun init => List.foldlM (fun acc q => commitActorStep acc q)
    init [] >>= fun w1 => update_operator_actors w1) = Except.ok w2
  exact hw2

/-- C8 amended: assigning is_visible stages exactly one entry
{"isVisible": bool(value)} in the actor's own pending-changes and then invokes
the actor's normal commit (OperatorActor.commit), which aggregates dirty
children; when all children are clean (and the store is well-formed: live
dict, children's dicts distinct from the actor's own), the committed PUT
payload is exactly {"isVisible": value, "id": actor id} and nothing else. -/
theorem is_visible_commit_payload (w : ActorWorld) (r : Nat) (v : Bool)
    (hr : r < w.store.actors.length)
    (hlist : w.operatorActors = [r])
    (hcb : (w.store.actor r).callback = ACallback.session)
    (hown : w.store.dict ((w.store.actor r).ccRef) = [])
    (hownlt : (w.store.actor r).ccRef < w.store.dicts.length)
    (hclean : ∀ c ∈ (w.store.actor r).properties ++ (w.store.actor r).property_arrays ++
        (w.store.actor r).property_enums ++ (w.store.actor r).actions,
      w.store.dict c.ccRef = [] ∧ c.ccRef ≠ (w.store.actor r).ccRef)
    (hauto : w.autocommit = true)
    (hresp : w.serverActorResp = goodActorResp)
    (hsrv : ∀ rec ∈ w.serverActors, rec.propertyArrays = []) :
    ∃ w', setIsVisible w r v = Except.ok w' ∧
      w'.puts = w.puts ++
        [[("isVisible", JVal.bool v), ("id", JVal.int (w.store.actor r).id)]] := by
  set stA := w.store.updateActor r (fun a => { a with is_visible := v }) with hstAdef
  have hactA : stA.actor r = { w.store.actor r with is_visible := v } :=
    actor_updateActor_self _ _ _ hr
  have hccA : (stA.actor r).ccRef = (w.store.actor r).ccRef := by rw [hactA]
  have hdictA : ∀ i, stA.dict i = w.store.dict i := fun i => rfl
  have hlenA : stA.dicts.length = w.store.dicts.length := rfl
  set stB := stA.setDict ((stA.actor r).ccRef)
    (dictInsert (stA.dict ((stA.actor r).ccRef)) "isVisible" (JVal.bool v)) with hstBdef
  have hgoal : setIsVisible w r v = actorCommit { w with store := stB } r false := rfl
  have hd1 : dictInsert (stA.dict ((stA.actor r).ccRef)) "isVisible" (JVal.bool v) =
      [("isVisible", JVal.bool v)] := by
    rw [hccA, hdictA, hown]
    rfl
  have hactB : stB.actor r = stA.actor r := rfl
  have hdirtyB : stB.dict ((stB.actor r).ccRef) = [("isVisible", JVal.bool v)] := by
    have h1 := adict_setDict_self stA ((stA.actor r).ccRef)
      (dictInsert (stA.dict ((stA.actor r).ccRef)) "isVisible" (JVal.bool v))
      (by rw [hccA]; exact hownlt)
    exact h1.trans hd1
  have hfieldsB : (stB.actor r).properties = (w.store.actor r).properties ∧
      (stB.actor r).property_arrays = (w.store.actor r).property_arrays ∧
      (stB.actor r).property_enums = (w.store.actor r).property_enums ∧
      (stB.actor r).actions = (w.store.actor r).actions ∧
      (stB.actor r).ccRef = (w.store.actor r).ccRef ∧
      (stB.actor r).id = (w.store.actor r).id ∧
      (stB.actor r).callback = (w.store.actor r).callback := by
    rw [hactB, hactA]
    exact ⟨rfl, rfl, rfl, rfl, rfl, rfl, rfl⟩
  have hcleanB : ∀ c ∈ (w.store.actor r).properties ++ (w.store.actor r).property_arrays ++
      (w.store.actor r).property_enums ++ (w.store.actor r).actions,
      stB.dict c.ccRef = [] := by
    intro c hc
    obtain ⟨hcd, hcne⟩ := hclean c hc
    rw [hstBdef, adict_setDict_ne _ _ _ _ (by rw [hccA]; exact hcne), hdictA]
    exact hcd
  have hcheckP : check_updates stB (stB.actor r).properties = [] := by
    rw [hfieldsB.1]
    exact check_updates_clean _ _ (fun c hc => hcleanB c
      (List.mem_append_left _ (List.mem_append_left _ (List.mem_append_left _ hc))))
  have hcheckA : check_updates stB (stB.actor r).property_arrays = [] := by
    rw [hfieldsB.2.1]
    exact check_updates_clean _ _ (fun c hc => hcleanB c
      (List.mem_append_left _ (List.mem_append_left _ (List.mem_append_right _ hc))))
  have hcheckE : check_updates stB (stB.actor r).property_enums = [] := by
    rw [hfieldsB.2.2.1]
    exact check_updates_clean _ _ (fun c hc => hcleanB c
      (List.mem_append_left _ (List.mem_append_right _ hc)))
  have hcheckAc : check_updates stB (stB.actor r).actions = [] := by
    rw [hfieldsB.2.2.2.1]
    exact check_updates_clean _ _ (fun c hc => hcleanB c (List.mem_append_right _ hc))
  have hdirtyB' : stB.dict ((stB.actor r).ccRef) ≠ [] := by
    rw [hdirtyB]
    exact List.cons_ne_nil _ _
  have hcbB : (stB.actor r).callback = ACallback.session := by
    rw [hfieldsB.2.2.2.2.2.2]
    exact hcb
  have heq1 := actorCommit_clean_children { w with store := stB } r false
    hcheckP hcheckA hcheckE hcheckAc hdirtyB' hcbB
  set stC := stB.setDict ((stB.actor r).ccRef)
    (dictInsert (stB.dict ((stB.actor r).ccRef)) "id"
      (JVal.int ((stB.actor r).id))) with hstCdef
  have hd2 : dictInsert (stB.dict ((stB.actor r).ccRef)) "id"
      (JVal.int ((stB.actor r).id)) =
      [("isVisible", JVal.bool v), ("id", JVal.int (w.store.actor r).id)] := by
    rw [hdirtyB, hfieldsB.2.2.2.2.2.1]
    simp [dictInsert]
  have hlenB : stB.dicts.length = w.store.dicts.length := by
    rw [hstBdef]
    show (stA.dicts.set ((stA.actor r).ccRef)
      (dictInsert (stA.dict ((stA.actor r).ccRef)) "isVisible" (JVal.bool v))).length =
      w.store.dicts.length
    rw [List.length_set]
    exact hlenA
  have hactC : stC.actor r = stB.actor r := rfl
  have hdirtyC : stC.dict ((stC.actor r).ccRef) =
      [("isVisible", JVal.bool v), ("id", JVal.int (w.store.actor r).id)] := by
    have h1 := adict_setDict_self stB ((stB.actor r).ccRef)
      (dictInsert (stB.dict ((stB.actor r).ccRef)) "id" (JVal.int ((stB.actor r).id)))
      (by rw [hfieldsB.2.2.2.2.1, hlenB]; exact hownlt)
    exact h1.trans hd2
  have hdirtyC' : stC.dict ((stC.actor r).ccRef) ≠ [] := by
    rw [hdirtyC]
    exact List.cons_ne_nil _ _
  obtain ⟨w', hok, hputs⟩ := commitOperatorActors_singleton
    { w with store := stC } r hauto hlist hdirtyC' hresp hsrv
  refine ⟨w', ?_, ?_⟩
  · rw [hgoal, heq1]
    exact hok
  · rw [hputs]
    show w.puts ++ [stC.dict ((stC.actor r).ccRef)] = _
    rw [hdirtyC]

/-- Witness for is_visible_commit_payload at the concrete session
exActorWorld, whose single actor has one clean property child: the committed
payload is exactly {"isVisible": false, "id": 1}. -/
theorem is_visible_commit_payload_witness :
    ((0 : Nat) < exActorWorld.store.actors.length ∧
     exActorWorld.operatorActors = [0] ∧
     (exActorWorld.store.actor 0).callback = ACallback.session ∧
     exActorWorld.store.dict ((exActorWorld.store.actor 0).ccRef) = [] ∧
     (exActorWorld.store.actor 0).ccRef < exActorWorld.store.dicts.length ∧
     exActorWorld.autocommit = true ∧
     exActorWorld.serverActorResp = goodActorResp) ∧
    (∃ w', setIsVisible exActorWorld 0 false = Except.ok w' ∧
      w'.puts = exActorWorld.puts ++
        [[("isVisible", JVal.bool false),
          ("id", JVal.int (exActorWorld.store.actor 0).id)]]) := by
  refine ⟨⟨by decide, rfl, rfl, rfl, by decide, rfl, rfl⟩, ?_⟩
  refine is_visible_commit_payload exActorWorld 0 false (by decide) rfl rfl rfl
    (by decide) ?_ rfl rfl ?_
  · intro c hc
    rw [show (exActorWorld.store.actor 0).properties ++
        (exActorWorld.store.actor 0).property_arrays ++
        (exActorWorld.store.actor 0).property_enums ++
        (exActorWorld.store.actor 0).actions =
        [({ name := "p", ccRef := 0 } : ChildObj)] from rfl] at hc
    rw [List.mem_singleton.mp hc]
    exact ⟨rfl, by decide⟩
  · intro rec hrec
    rw [show exActorWorld.serverActors = exServerActors from rfl] at hrec
    rw [List.mem_singleton.mp hrec]
